import Mathlib

/-
  Verification of the cross-clip speaker identity resolution subsystem
  (src/services/speaker_diarization.py, class SpeakerDiarizationService).

  Python values are shallowly embedded:
  * strings (speaker labels) are lists of Unicode code points (`Label`),
    so that ord / chr arithmetic from the source is plain Nat arithmetic;
  * dicts are association lists in insertion order with unique keys
    (`PyDict`), matching CPython semantics: assignment to an existing key
    replaces the value in place, assignment to a fresh key appends;
  * `list(set(xs))` is modeled as `xs.dedup`; CPython leaves the order of a
    set unspecified, and no theorem below depends on the order beyond the
    choice of a maximum over pairwise-distinct keys, which is order
    independent;
  * exceptions are `Except` values; IO-performing collaborators
    (AssemblyAI transcript polling, pydub audio slicing, the NeMo
    verifier, the acoustic scoring) enter as oracle parameters returning
    `Except`, so that a raising collaborator is representable.
-/

namespace SpeakerDiarization

/-- Decidable equality for Except values, used to evaluate the pipeline on
concrete inputs. -/
instance {ε α : Type} [DecidableEq ε] [DecidableEq α] : DecidableEq (Except ε α) :=
  fun a b =>
    match a, b with
    | .error e1, .error e2 =>
      if h : e1 = e2 then .isTrue (by rw [h]) else .isFalse (fun hc => h (Except.error.inj hc))
    | .error _, .ok _ => .isFalse Except.noConfusion
    | .ok _, .error _ => .isFalse Except.noConfusion
    | .ok a1, .ok a2 =>
      if h : a1 = a2 then .isTrue (by rw [h]) else .isFalse (fun hc => h (Except.ok.inj hc))

/-- Speaker labels (Python strings) as lists of Unicode code points. -/
abbrev Label := List Nat

/-- Python dict with key type α and value type β: an association list in
insertion order.  All dicts built below have unique keys. -/
abbrev PyDict (α β : Type) := List (α × β)

/-- Python `d.get(k)` / `d[k]`: value of the first binding of `k`. -/
def dictGet {α β : Type} [DecidableEq α] (m : PyDict α β) (k : α) : Option β :=
  match m with
  | [] => none
  | p :: rest => if p.1 = k then some p.2 else dictGet rest k

/-- Python `d[k] = v`: replace in place if the key exists, else append. -/
def dictSet {α β : Type} [DecidableEq α] (m : PyDict α β) (k : α) (v : β) : PyDict α β :=
  match m with
  | [] => [(k, v)]
  | p :: rest => if p.1 = k then (k, v) :: rest else p :: dictSet rest k v

/-- Python `d.keys()` in insertion order. -/
def dictKeys {α β : Type} (m : PyDict α β) : List α := m.map (·.1)

/-- Python `d.values()` in insertion order. -/
def dictValues {α β : Type} (m : PyDict α β) : List β := m.map (·.2)

/-- Python `d.update(d2)`: set every binding of `d2` in `d`, in order. -/
def dictUpdate {α β : Type} [DecidableEq α] (m m2 : PyDict α β) : PyDict α β :=
  m2.foldl (fun acc p => dictSet acc p.1 p.2) m

theorem dictKeys_cons {α β : Type} (p : α × β) (rest : PyDict α β) :
    dictKeys (p :: rest) = p.1 :: dictKeys rest := rfl

theorem dictGet_dictSet_self {α β : Type} [DecidableEq α]
    (m : PyDict α β) (k : α) (v : β) : dictGet (dictSet m k v) k = some v := by
  induction m with
  | nil => simp [dictGet, dictSet]
  | cons p rest ih =>
    by_cases h : p.1 = k
    · simp [dictSet, h, dictGet]
    · simp [dictSet, h, dictGet, ih]

theorem dictGet_dictSet_ne {α β : Type} [DecidableEq α]
    (m : PyDict α β) (k k2 : α) (v : β) (h : k2 ≠ k) :
    dictGet (dictSet m k v) k2 = dictGet m k2 := by
  have hk : k ≠ k2 := Ne.symm h
  induction m with
  | nil => simp [dictSet, dictGet, hk]
  | cons p rest ih =>
    by_cases hp : p.1 = k
    · subst hp
      simp [dictSet, dictGet, hk]
    · simp [dictSet, hp, dictGet, ih]

theorem mem_of_dictGet {α β : Type} [DecidableEq α]
    (m : PyDict α β) (k : α) (v : β) (h : dictGet m k = some v) : (k, v) ∈ m := by
  induction m with
  | nil => simp [dictGet] at h
  | cons p rest ih =>
    obtain ⟨p1, p2⟩ := p
    by_cases hp : p1 = k
    · subst hp
      simp [dictGet] at h
      subst h
      exact List.mem_cons_self _ _
    · simp [dictGet, hp] at h
      exact List.mem_cons_of_mem _ (ih h)

theorem dictGet_mem_keys {α β : Type} [DecidableEq α]
    (m : PyDict α β) (k : α) (v : β) (h : dictGet m k = some v) : k ∈ dictKeys m := by
  have hm := mem_of_dictGet m k v h
  exact List.mem_map.mpr ⟨(k, v), hm, rfl⟩

theorem dictGet_eq_none_of_not_mem {α β : Type} [DecidableEq α]
    (m : PyDict α β) (k : α) (h : k ∉ dictKeys m) : dictGet m k = none := by
  induction m with
  | nil => rfl
  | cons p rest ih =>
    rw [dictKeys_cons] at h
    have h1 : p.1 ≠ k := fun he => h (by simp [he])
    have h2 : k ∉ dictKeys rest := fun hm => h (by simp [hm])
    simp [dictGet, h1, ih h2]

theorem dictKeys_dictSet_of_mem {α β : Type} [DecidableEq α]
    (m : PyDict α β) (k : α) (v : β) (h : k ∈ dictKeys m) :
    dictKeys (dictSet m k v) = dictKeys m := by
  induction m with
  | nil => simp [dictKeys] at h
  | cons p rest ih =>
    by_cases hp : p.1 = k
    · simp [dictSet, hp, dictKeys_cons]
    · rw [dictKeys_cons] at h
      have h2 : k ∈ dictKeys rest := by
        rcases List.mem_cons.mp h with h1 | h1
        · exact absurd h1.symm hp
        · exact h1
      simp [dictSet, hp, dictKeys_cons, ih h2]

theorem dictKeys_dictSet_of_not_mem {α β : Type} [DecidableEq α]
    (m : PyDict α β) (k : α) (v : β) (h : k ∉ dictKeys m) :
    dictKeys (dictSet m k v) = dictKeys m ++ [k] := by
  induction m with
  | nil => simp [dictSet, dictKeys]
  | cons p rest ih =>
    rw [dictKeys_cons] at h
    have h1 : p.1 ≠ k := fun he => h (by simp [he])
    have h2 : k ∉ dictKeys rest := fun hm => h (by simp [hm])
    simp [dictSet, h1, dictKeys_cons, ih h2]

theorem mem_keys_dictSet {α β : Type} [DecidableEq α]
    (m : PyDict α β) (k a : α) (v : β) :
    a ∈ dictKeys (dictSet m k v) ↔ a = k ∨ a ∈ dictKeys m := by
  by_cases h : k ∈ dictKeys m
  · rw [dictKeys_dictSet_of_mem m k v h]
    constructor
    · exact Or.inr
    · rintro (rfl | h2)
      exacts [h, h2]
  · rw [dictKeys_dictSet_of_not_mem m k v h]
    simp [or_comm]

theorem keys_nodup_dictSet {α β : Type} [DecidableEq α]
    (m : PyDict α β) (k : α) (v : β) (h : (dictKeys m).Nodup) :
    (dictKeys (dictSet m k v)).Nodup := by
  by_cases hm : k ∈ dictKeys m
  · rwa [dictKeys_dictSet_of_mem m k v hm]
  · rw [dictKeys_dictSet_of_not_mem m k v hm]
    rw [List.nodup_append]
    refine ⟨h, List.nodup_singleton k, ?_⟩
    intro a ha hb
    rw [List.mem_singleton] at hb
    exact hm (hb ▸ ha)

theorem dictGet_of_mem_nodup {α β : Type} [DecidableEq α]
    (m : PyDict α β) (k : α) (v : β) (hn : (dictKeys m).Nodup)
    (h : (k, v) ∈ m) : dictGet m k = some v := by
  induction m with
  | nil => simp at h
  | cons p rest ih =>
    rw [dictKeys_cons] at hn
    rcases List.mem_cons.mp h with h1 | h1
    · rw [← h1]
      simp [dictGet]
    · have hmem : k ∈ dictKeys rest := List.mem_map.mpr ⟨(k, v), h1, rfl⟩
      have hne : p.1 ≠ k := by
        intro he
        exact (List.nodup_cons.mp hn).1 (by rwa [he])
      simp [dictGet, hne, ih (List.nodup_cons.mp hn).2 h1]

theorem exists_dictGet_of_mem_values {α β : Type} [DecidableEq α]
    (m : PyDict α β) (v : β) (hn : (dictKeys m).Nodup)
    (h : v ∈ dictValues m) : ∃ k, dictGet m k = some v := by
  simp only [dictValues] at h
  rcases List.mem_map.mp h with ⟨p, hp, hv⟩
  obtain ⟨p1, p2⟩ := p
  cases hv
  exact ⟨p1, dictGet_of_mem_nodup m p1 p2 hn hp⟩

theorem mem_values_of_dictGet {α β : Type} [DecidableEq α]
    (m : PyDict α β) (k : α) (v : β) (h : dictGet m k = some v) :
    v ∈ dictValues m := by
  have hm := mem_of_dictGet m k v h
  exact List.mem_map.mpr ⟨(k, v), hm, rfl⟩

/-- An utterance as returned by the transcription collaborator and mutated
by `_update_utterance_speakers`: keys `speaker`, `start`, `end`, `text`,
and the `original_speaker` key that annotation may add (absent = `none`).
The `end` key is called `stop` because `end` is reserved in Lean. -/
structure Utt where
  speaker : Label
  start : Int
  stop : Int
  text : String
  origSpeaker : Option Label := none
  deriving DecidableEq

/-- A running monologue record `{"start": ..., "end": ...}` used by
`find_longest_monologues`. -/
structure Mono where
  start : Int
  stop : Int
  deriving DecidableEq

/-- First minimum of a nonempty list of (length, monologue) entries by the
length component, like Python `min(lst, key=lambda x: x[0])`, which keeps
the earliest entry among ties. -/
def pyMinFst (e : Int × Mono) : List (Int × Mono) → Int × Mono
  | [] => e
  | x :: xs => pyMinFst (if x.1 < e.1 then x else e) xs

/-- The retention step of `find_longest_monologues` (lines 347-353 and
364-370): keep a candidate entry only if the list holds fewer than one
entry or the candidate is strictly longer than the current minimum, and
drop the previous minimum when the list already has one entry. -/
def keepLongest (lst : List (Int × Mono)) (entry : Int × Mono) : List (Int × Mono) :=
  match lst with
  | [] => [entry]
  | x :: xs =>
    let mn := pyMinFst x xs
    if entry.1 > mn.1 then
      (if (x :: xs).length == 1 then (x :: xs).erase mn else x :: xs) ++ [entry]
    else x :: xs

/-- Loop state of `find_longest_monologues`: the `longest_monologues` and
`current_monologue` dicts plus the `last_speaker` variable. -/
structure MonoState where
  longest : PyDict Label (List (Int × Mono))
  current : PyDict Label Mono
  lastSpeaker : Option Label

/-- One iteration of the utterance loop in `find_longest_monologues`
(lines 327-357). -/
def monoStep (st : MonoState) (u : Utt) : MonoState :=
  match dictGet st.current u.speaker with
  | none =>
      { longest := dictSet st.longest u.speaker []
        current := dictSet st.current u.speaker ⟨u.start, u.stop⟩
        lastSpeaker := some u.speaker }
  | some cm =>
      if cm.stop = u.start ∧ st.lastSpeaker = some u.speaker then
        { st with
          current := dictSet st.current u.speaker ⟨cm.start, u.stop⟩
          lastSpeaker := some u.speaker }
      else
        { longest := dictSet st.longest u.speaker
            (keepLongest ((dictGet st.longest u.speaker).getD []) (cm.stop - cm.start, cm))
          current := dictSet st.current u.speaker ⟨u.start, u.stop⟩
          lastSpeaker := some u.speaker }

/-- The final pass of `find_longest_monologues` (lines 360-370): flush the
in-progress monologue of every speaker.  In the source
`longest_monologues[speaker]` always exists for every key of
`current_monologue` (both are created together), so the `getD []` default
is never taken. -/
def monoFinalize (st : MonoState) : PyDict Label (List (Int × Mono)) :=
  st.current.foldl
    (fun lg p =>
      dictSet lg p.1 (keepLongest ((dictGet lg p.1).getD []) (p.2.stop - p.2.start, p.2)))
    st.longest

/-- Embedding of `find_longest_monologues` (lines 313-372). -/
def findLongestMonologues (utts : List Utt) : PyDict Label (List (Int × Mono)) :=
  monoFinalize (utts.foldl monoStep ⟨[], [], none⟩)

/-- The candidate contiguous runs per speaker, following the scanning
semantics the specification gives for the MonologueExtractor: the same
traversal as `find_longest_monologues`, but every finalized run is
recorded instead of only the longest.  Used to state the monotonicity
property of the retained monologue. -/
def candStep (st : MonoState) (u : Utt) : MonoState :=
  match dictGet st.current u.speaker with
  | none =>
      { longest := dictSet st.longest u.speaker []
        current := dictSet st.current u.speaker ⟨u.start, u.stop⟩
        lastSpeaker := some u.speaker }
  | some cm =>
      if cm.stop = u.start ∧ st.lastSpeaker = some u.speaker then
        { st with
          current := dictSet st.current u.speaker ⟨cm.start, u.stop⟩
          lastSpeaker := some u.speaker }
      else
        { longest := dictSet st.longest u.speaker
            (((dictGet st.longest u.speaker).getD []) ++ [(cm.stop - cm.start, cm)])
          current := dictSet st.current u.speaker ⟨u.start, u.stop⟩
          lastSpeaker := some u.speaker }

/-- Final flush for the candidate-run traversal. -/
def candFinalize (st : MonoState) : PyDict Label (List (Int × Mono)) :=
  st.current.foldl
    (fun lg p =>
      dictSet lg p.1 (((dictGet lg p.1).getD []) ++ [(p.2.stop - p.2.start, p.2)]))
    st.longest

/-- All candidate contiguous runs of each speaker of one clip. -/
def candidateRuns (utts : List Utt) : PyDict Label (List (Int × Mono)) :=
  candFinalize (utts.foldl candStep ⟨[], [], none⟩)

/-- A representative audio clip file produced by `clip_and_store_utterances`,
identified abstractly by the audio file it was cut from and the clip-local
speaker it represents (the source uses the export path as identity). -/
abbrev AudioRef := Nat × Label

/-- Python `str.isalpha` restricted to the ASCII letters that all labels in
this module use (line 798 applies it to a single character). -/
def pyIsAlpha (n : Nat) : Bool := (65 ≤ n && n ≤ 90) || (97 ≤ n && n ≤ 122)

/-- The key of the `max` call at line 797:
`ord(x) if len(x) == 1 else ord("A")`. -/
def labelKey (s : Label) : Nat := if s.length == 1 then s.headD 0 else 65

/-- Python `max(e :: rest, key=labelKey)`: first entry with maximal key. -/
def pyMaxLabel (e : Label) : List Label → Label
  | [] => e
  | x :: xs => pyMaxLabel (if labelKey x > labelKey e then x else e) xs

/-- Fresh-label minting for an unmatched speaker
(`_compare_speakers_across_clips` lines 793-803): take
`list(set(identity_map.values()))`; if empty the label is `"A"`; otherwise
find the max by `labelKey`, and if that is a single alphabetic character
produce its successor `chr(ord(c) + 1)`, else produce
`chr(ord("A") + len(existing))`. -/
def mintLabel (values : List Label) : Label :=
  match values.dedup with
  | [] => [65]
  | e :: es =>
    let last := pyMaxLabel e es
    if last.length == 1 && pyIsAlpha (last.headD 0) then [last.headD 0 + 1]
    else [65 + (e :: es).length]

/-- The inner loop of `_compare_speakers_across_clips` (lines 777-790):
compare the new speaker's clip against every previously stored clip in
order; on the first match whose unified label is truthy (non-empty),
return it.  A match whose looked-up label is falsy does not set `matched`
and the loop continues (lines 785-790). -/
def findMatch (compare : AudioRef → AudioRef → Bool) (m : PyDict Label Label)
    (newClip : AudioRef) : List (Label × AudioRef) → Option Label
  | [] => none
  | (baseSpeaker, baseClip) :: rest =>
    if compare newClip baseClip then
      let unified := (dictGet m baseSpeaker).getD baseSpeaker
      if unified ≠ [] then some unified
      else findMatch compare m newClip rest
    else findMatch compare m newClip rest

/-- Resolution of one new speaker (lines 774-806): map it to the unified
label of the first matching previous speaker, or mint a new label. -/
def resolveSpeaker (compare : AudioRef → AudioRef → Bool)
    (prevClips : PyDict Label AudioRef) (m : PyDict Label Label)
    (newSpeaker : Label) (newClip : AudioRef) : PyDict Label Label :=
  match findMatch compare m newClip prevClips with
  | some unified => dictSet m newSpeaker unified
  | none => dictSet m newSpeaker (mintLabel (dictValues m))

/-- The outer loop of `_compare_speakers_across_clips` (lines 774-806):
resolve every speaker of the current clip in order, threading the
identity map. -/
def resolveAll (compare : AudioRef → AudioRef → Bool)
    (prevClips : PyDict Label AudioRef) (m : PyDict Label Label) :
    List (Label × AudioRef) → PyDict Label Label
  | [] => m
  | (speaker, clip) :: rest =>
    resolveAll compare prevClips (resolveSpeaker compare prevClips m speaker clip) rest

/-- Embedding of `_compare_speakers_across_clips` (lines 767-813): resolve
every speaker of the current clip in order against the previous clips'
stored representatives, then `previous_speaker_clips.update(current)`.
The comparison oracle is total here, so the `except` wrapper at lines
811-813 is unreachable. -/
def compareSpeakersAcrossClips (compare : AudioRef → AudioRef → Bool)
    (m : PyDict Label Label) (prevClips : PyDict Label AudioRef)
    (currentClips : PyDict Label AudioRef) :
    PyDict Label Label × PyDict Label AudioRef :=
  (resolveAll compare prevClips m currentClips,
   dictUpdate prevClips currentClips)

/-- Annotation of one utterance by `_update_utterance_speakers`
(lines 821-825): when the original speaker has an identity-map entry,
overwrite `speaker` with the unified label and record the original in
`original_speaker`; otherwise the utterance is left untouched. -/
def annotateUtt (m : PyDict Label Label) (u : Utt) : Utt :=
  match dictGet m u.speaker with
  | some g => { u with speaker := g, origSpeaker := some u.speaker }
  | none => u

/-- Embedding of `_update_utterance_speakers` (lines 815-828) applied to
one clip's utterance list. -/
def updateUtteranceSpeakers (m : PyDict Label Label) (utts : List Utt) : List Utt :=
  utts.map (annotateUtt m)

/-- Embedding of `_fallback_speaker_comparison` (lines 575-627).  The
audio loading and the duration/energy/spectral computation of lines
585-613 are abstracted into an `acousticScore` collaborator that either
produces the combined similarity score or fails (any exception inside the
`try` of lines 584-623); scores are modeled as rationals. -/
def fallbackSpeakerComparison (depsAvailable : Bool)
    (acousticScore : AudioRef → AudioRef → Except String ℚ)
    (clip1 clip2 : AudioRef) : Bool :=
  if !depsAvailable then false
  else
    match acousticScore clip1 clip2 with
    | .ok score => score > 3 / 5
    | .error _ => false

/-- Embedding of `compare_embeddings` (lines 541-573): when the NeMo model
is unavailable use the fallback; otherwise ask the verifier for a score
and threshold it at 0.5; if the verifier raises, use the fallback for
this one comparison. -/
def compareEmbeddings (nemoAvailable : Bool)
    (verifySpeakers : AudioRef → AudioRef → Except String ℚ)
    (depsAvailable : Bool)
    (acousticScore : AudioRef → AudioRef → Except String ℚ)
    (utteranceClip referenceFile : AudioRef) : Bool :=
  if !nemoAvailable then
    fallbackSpeakerComparison depsAvailable acousticScore utteranceClip referenceFile
  else
    match verifySpeakers utteranceClip referenceFile with
    | .ok score => score > 1 / 2
    | .error _ =>
        fallbackSpeakerComparison depsAvailable acousticScore utteranceClip referenceFile

/-- Which implementation of the similarity capability decides a given
comparison, read off the branch structure of `compare_embeddings`
(lines 552-573): the fallback heuristic when NeMo is unavailable or when
the verifier raises for this pair, the embedding verifier otherwise. -/
def oracleUsedFor (nemoAvailable : Bool)
    (verifySpeakers : AudioRef → AudioRef → Except String ℚ)
    (a b : AudioRef) : String :=
  if !nemoAvailable then "heuristic"
  else
    match verifySpeakers a b with
    | .ok _ => "embedding"
    | .error _ => "heuristic"

/-- Exceptions of src/services/base.py that the pipeline raises: both are
subclasses of ServiceError whose `str` is the constructor message. -/
inductive PyErr where
  | validationError (msg : String)
  | processingError (msg : String)
  deriving DecidableEq

/-- Python `str(e)` of a ServiceError. -/
def PyErr.message : PyErr → String
  | .validationError m => m
  | .processingError m => m

/-- External collaborators of `process_clips_async`, bundled:
`fetchTranscript` is `get_transcript` (returns the `utterances` list or
raises ProcessingError, lines 287-311 and 673-679); `sampleSpeaker` is
`clip_and_store_utterances` for one speaker (returns whether a
representative clip was produced, or raises ProcessingError, lines
374-495 and 693-704); the remaining fields feed `compare_embeddings`. -/
structure Collaborators where
  nemoAvailable : Bool
  verifySpeakers : AudioRef → AudioRef → Except String ℚ
  depsAvailable : Bool
  acousticScore : AudioRef → AudioRef → Except String ℚ
  fetchTranscript : Nat → Except String (List Utt)
  sampleSpeaker : Nat → Label → Except String Bool

/-- The mutable processing state reset at lines 656-659. -/
structure RunState where
  clipUtterances : PyDict Nat (List Utt)
  speakerIdentityMap : PyDict Label Label
  previousSpeakerClips : PyDict Label AudioRef
  deriving DecidableEq

/-- Lines 694-704: for each speaker of the clip, in monologue-dict order,
call `clip_and_store_utterances` and record the speaker's clip when the
returned list is nonempty. -/
def buildCurrentClips (sample : Nat → Label → Except String Bool) (audioFile : Nat) :
    List (Label × List (Int × Mono)) → Except String (PyDict Label AudioRef)
  | [] => .ok []
  | (speaker, _) :: rest =>
    match sample audioFile speaker with
    | .error e => .error e
    | .ok produced =>
      match buildCurrentClips sample audioFile rest with
      | .error e => .error e
      | .ok tail => .ok (if produced then (speaker, (audioFile, speaker)) :: tail else tail)

/-- Lines 707-718: after extraction and sampling, update the identity
registry for this clip: clip 0 establishes the baseline map
`{speaker: speaker}` over the monologue speakers and stores their clips,
later clips go through `_compare_speakers_across_clips`. -/
def applyIdentityStep (co : Collaborators) (clipIndex : Nat)
    (lm : PyDict Label (List (Int × Mono))) (currentClips : PyDict Label AudioRef)
    (st : RunState) : RunState :=
  if clipIndex = 0 then
    { st with
      speakerIdentityMap := lm.map (fun p => (p.1, p.1))
      previousSpeakerClips := currentClips }
  else
    let r := compareSpeakersAcrossClips
      (compareEmbeddings co.nemoAvailable co.verifySpeakers
        co.depsAvailable co.acousticScore)
      st.speakerIdentityMap st.previousSpeakerClips currentClips
    { st with speakerIdentityMap := r.1, previousSpeakerClips := r.2 }

/-- Line 684: store the clip's raw utterances under its index. -/
def storeRaw (clipIndex : Nat) (utts : List Utt) (st : RunState) : RunState :=
  { st with clipUtterances := dictSet st.clipUtterances clipIndex utts }

/-- Line 720: rewrite the stored utterances of this clip with the current
identity map (`_update_utterance_speakers`). -/
def annotateClipState (clipIndex : Nat) (utts : List Utt) (st : RunState) : RunState :=
  { st with
    clipUtterances := dictSet st.clipUtterances clipIndex
      (updateUtteranceSpeakers st.speakerIdentityMap utts) }

/-- The body of one iteration of the clip loop (lines 673-720), given the
fetched transcript utterances: skip the clip when it has no utterances or
no monologues (`continue`), otherwise store the raw utterances, sample
speaker clips, run the identity step, and rewrite the clip's utterances
in place via `_update_utterance_speakers`. -/
def processClip (co : Collaborators) (clipIndex : Nat) (audioFile : Nat)
    (utts : List Utt) (st : RunState) : Except String RunState :=
  if utts.isEmpty then .ok st
  else
    let st1 := storeRaw clipIndex utts st
    let lm := findLongestMonologues utts
    if lm.isEmpty then .ok st1
    else
      match buildCurrentClips co.sampleSpeaker audioFile lm with
      | .error e => .error e
      | .ok currentClips =>
        .ok (annotateClipState clipIndex utts
          (applyIdentityStep co clipIndex lm currentClips st1))

/-- The per-clip loop of `process_clips_async` (lines 662-720), with the
progress callback omitted (pure notification side channel). -/
def runClips (co : Collaborators) :
    List (Nat × Nat) → Nat → RunState → Except String RunState
  | [], _, st => .ok st
  | (transcriptId, audioFile) :: rest, clipIndex, st =>
    match co.fetchTranscript transcriptId with
    | .error e => .error e
    | .ok utts =>
      match processClip co clipIndex audioFile utts st with
      | .error e => .error e
      | .ok st2 => runClips co rest (clipIndex + 1) st2

/-- The dictionary assembled at lines 733-745.  The speaker-statistics
entry and the timestamp are outside every claim and omitted; the
processing metadata is represented by its `nemo_available` flag. -/
structure DiarizationResult where
  success : Bool
  totalClipsProcessed : Nat
  clipUtterances : PyDict Nat (List Utt)
  speakerIdentityMap : PyDict Label Label
  uniqueSpeakers : List Label
  nemoAvailable : Bool
  deriving DecidableEq

/-- Body of the `try` block of `process_clips_async` (lines 643-754): the
transcript/audio count check raising ValidationError, the clip loop, and
the result assembly.  Internal String errors are the messages of the
ProcessingError exceptions that `get_transcript` and
`clip_and_store_utterances` raise. -/
def processClipsAsyncBody (co : Collaborators)
    (clipTranscriptIds audioFiles : List Nat) : Except PyErr DiarizationResult :=
  if clipTranscriptIds.length ≠ audioFiles.length then
    .error (.validationError "Number of transcript IDs must match number of audio files")
  else
    match runClips co (clipTranscriptIds.zip audioFiles) 0 ⟨[], [], []⟩ with
    | .error e => .error (.processingError e)
    | .ok st =>
      .ok { success := true
            totalClipsProcessed := clipTranscriptIds.length
            clipUtterances := st.clipUtterances
            speakerIdentityMap := st.speakerIdentityMap
            uniqueSpeakers := (dictValues st.speakerIdentityMap).dedup
            nemoAvailable := co.nemoAvailable }

/-- Embedding of `process_clips_async` (lines 629-765): the whole body is
wrapped by `except Exception` (lines 756-765) which re-raises everything,
the ValidationError of line 647 included, as
`ProcessingError("Async speaker diarization failed: " + str(e))`. -/
def processClipsAsync (co : Collaborators)
    (clipTranscriptIds audioFiles : List Nat) : Except PyErr DiarizationResult :=
  match processClipsAsyncBody co clipTranscriptIds audioFiles with
  | .ok r => .ok r
  | .error e =>
      .error (.processingError ("Async speaker diarization failed: " ++ e.message))

/-- Code points of a string literal, for modeling file system paths the
same way labels are modeled. -/
def strCodes (s : String) : List Nat := s.toList.map Char.toNat

/-- Decimal digits of a natural number as code points, with structural
fuel so that concrete values reduce. -/
def natDigitsAux : Nat → Nat → List Nat
  | 0, _ => []
  | fuel + 1, n => if n < 10 then [48 + n] else natDigitsAux fuel (n / 10) ++ [48 + n % 10]

/-- Decimal rendering of a natural number as code points. -/
def natDigits (n : Nat) : List Nat := natDigitsAux (n + 1) n

/-- Whether `pat` occurs as a contiguous subsequence of the list. -/
def containsSeq (pat : List Nat) : List Nat → Bool
  | [] => pat.isEmpty
  | x :: xs => pat.isPrefixOf (x :: xs) || containsSeq pat xs

/-- A temporary clip file on disk: the directory it was exported to and
its base name, as code-point strings.  `clip_and_store_utterances`
exports to `dirname(audio_file) + "/speaker_clips"` with name
`{safe_speaker}_monologue_{start}_{end}.wav` (lines 456-467). -/
structure TempClipFile where
  dir : List Nat
  name : List Nat
  deriving DecidableEq

/-- The file `clip_and_store_utterances` creates for one monologue. -/
def clipFileFor (audioDir safeSpeaker : List Nat) (startMs endMs : Nat) : TempClipFile :=
  { dir := audioDir ++ strCodes "/speaker_clips"
    name := safeSpeaker ++ strCodes "_monologue_" ++ natDigits startMs
      ++ strCodes "_" ++ natDigits endMs ++ strCodes ".wav" }

/-- Whether a base name matches the glob `*_monologue_*.wav` used by
`_cleanup_temp_files` (line 874): the name contains `_monologue_` and
ends with `.wav`. -/
def matchesMonologueGlob (name : List Nat) : Bool :=
  (strCodes ".wav").isSuffixOf name && containsSeq (strCodes "_monologue_") name

/-- Embedding of `_cleanup_temp_files` (lines 868-883): `glob.glob` with a
bare pattern only sees the process working directory, so exactly the
files whose directory is the working directory and whose name matches the
pattern are removed; everything else survives. -/
def cleanupTempFiles (workingDir : List Nat) (files : List TempClipFile) :
    List TempClipFile :=
  files.filter (fun f => !(f.dir == workingDir && matchesMonologueGlob f.name))

/-- Temp files remaining when the run ends.  `_cleanup_temp_files` is
called only at line 730, inside the `try` body after the clip loop: a run
that ends in an exception goes through lines 756-765 and never cleans up. -/
def tempFilesAfterRun (succeeded : Bool) (workingDir : List Nat)
    (created : List TempClipFile) : List TempClipFile :=
  if succeeded then cleanupTempFiles workingDir created else created

/-- C10: rewriting a clip's utterances with unified speaker labels keeps
the number and order of utterances and the start, end and text fields of
every utterance unchanged; the only change per utterance is that one
whose local speaker has an identity-map entry gets that entry as its new
speaker and its clip-local label recorded in original_speaker, and one
whose local speaker has no entry is returned bit-for-bit unchanged. -/
theorem c10_update_rewrites_only_speaker (m : PyDict Label Label) (utts : List Utt) :
    (updateUtteranceSpeakers m utts).length = utts.length ∧
    ∀ i u, utts.get? i = some u →
      ∃ u2, (updateUtteranceSpeakers m utts).get? i = some u2 ∧
        u2.start = u.start ∧ u2.stop = u.stop ∧ u2.text = u.text ∧
        ((∃ g, dictGet m u.speaker = some g ∧
            u2 = { u with speaker := g, origSpeaker := some u.speaker }) ∨
         (dictGet m u.speaker = none ∧ u2 = u)) := by
  constructor
  · simp [updateUtteranceSpeakers]
  · intro i u hu
    refine ⟨annotateUtt m u, ?_, ?_⟩
    · rw [updateUtteranceSpeakers, List.get?_eq_getElem?, List.getElem?_map,
        ← List.get?_eq_getElem?, hu]
      rfl
    · cases h : dictGet m u.speaker with
      | some g =>
        refine ⟨?_, ?_, ?_, Or.inl ⟨g, rfl, ?_⟩⟩ <;> simp [annotateUtt, h]
      | none =>
        refine ⟨?_, ?_, ?_, Or.inr ⟨rfl, ?_⟩⟩ <;> simp [annotateUtt, h]

/-- Fixture utterance for the C10 witness. -/
def c10u : Utt := ⟨[65], 0, 10, "hi", none⟩

/-- Fixture identity map for the C10 witness. -/
def c10m : PyDict Label Label := [([65], [66])]

/-- C10 witness: a concrete one-utterance clip whose speaker is mapped. -/
theorem c10_update_rewrites_only_speaker_witness :
    ([c10u] : List Utt).get? 0 = some c10u ∧
    (∃ u2, (updateUtteranceSpeakers c10m [c10u]).get? 0 = some u2 ∧
      u2.start = c10u.start ∧ u2.stop = c10u.stop ∧ u2.text = c10u.text ∧
      ((∃ g, dictGet c10m c10u.speaker = some g ∧
          u2 = { c10u with speaker := g, origSpeaker := some c10u.speaker }) ∨
       (dictGet c10m c10u.speaker = none ∧ u2 = c10u))) :=
  ⟨by decide,
   (c10_update_rewrites_only_speaker c10m [c10u]).2 0 c10u (by decide)⟩

/-- C8 counterexample: an utterance whose local speaker has no
identity-map entry is returned completely unchanged — original_speaker
stays absent and no field of any kind is added — contradicting the claim
that such an utterance is annotated with an unresolved marker rather than
left unchanged (lines 823-825 only act when the speaker is in the map). -/
theorem c8_counterexample :
    updateUtteranceSpeakers [] [⟨[65], 3, 9, "orphan", none⟩] =
      [⟨[65], 3, 9, "orphan", none⟩] ∧
    (⟨[65], 3, 9, "orphan", none⟩ : Utt).origSpeaker = none := by decide

/-- C8 (amended): every utterance whose local speaker has an identity-map
entry — sampled or not, since annotation looks only at the speaker
field — appears annotated with that entry as its GlobalSpeakerId and with
its local label recorded; two utterances by the same local speaker always
receive the same annotation; an utterance whose local speaker was never
resolved stays in the list completely unchanged (no added marker), not
dropped. -/
theorem c8_unresolved_amended (m : PyDict Label Label) (utts : List Utt) :
    (∀ u ∈ utts, ∀ g, dictGet m u.speaker = some g →
      ({ u with speaker := g, origSpeaker := some u.speaker } : Utt) ∈
        updateUtteranceSpeakers m utts) ∧
    (∀ u ∈ utts, dictGet m u.speaker = none → u ∈ updateUtteranceSpeakers m utts) ∧
    (∀ u1 u2, u1 ∈ utts → u2 ∈ utts → u1.speaker = u2.speaker →
      (annotateUtt m u1).speaker = (annotateUtt m u2).speaker) := by
  refine ⟨?_, ?_, ?_⟩
  · intro u hu g hg
    exact List.mem_map.mpr ⟨u, hu, by simp [annotateUtt, hg]⟩
  · intro u hu hg
    exact List.mem_map.mpr ⟨u, hu, by simp [annotateUtt, hg]⟩
  · intro u1 u2 h1 h2 hsp
    have he : dictGet m u2.speaker = dictGet m u1.speaker := by rw [hsp]
    cases h : dictGet m u1.speaker with
    | some g => simp [annotateUtt, h, he.trans h]
    | none => simp [annotateUtt, h, he.trans h, hsp]

/-- C8 witness: a mapped speaker's utterance is annotated, an unmapped
speaker's utterance passes through unchanged. -/
theorem c8_unresolved_amended_witness :
    (⟨[66], 0, 10, "x", some [65]⟩ : Utt) ∈
      updateUtteranceSpeakers [([65], [66])] [⟨[65], 0, 10, "x", none⟩] ∧
    (⟨[67], 5, 9, "y", none⟩ : Utt) ∈
      updateUtteranceSpeakers [([65], [66])] [⟨[67], 5, 9, "y", none⟩] :=
  ⟨(c8_unresolved_amended [([65], [66])] [⟨[65], 0, 10, "x", none⟩]).1
     ⟨[65], 0, 10, "x", none⟩ (by decide) [66] (by decide),
   (c8_unresolved_amended [([65], [66])] [⟨[67], 5, 9, "y", none⟩]).2.1
     ⟨[67], 5, 9, "y", none⟩ (by decide) (by decide)⟩

/-- A verifier that always raises, for the C5 counterexample. -/
def c5verifyErr : AudioRef → AudioRef → Except String ℚ := fun _ _ => .error "CUDA error"

/-- An acoustic scorer that scores every pair at 1, for the C5
counterexample. -/
def c5scoreHigh : AudioRef → AudioRef → Except String ℚ := fun _ _ => .ok 1

/-- C5 counterexample: with the NeMo model loaded but its verifier
raising on this pair, and the acoustic heuristic scoring the pair at
1 (above the 0.6 threshold), the comparison returns true: a model error
is not resolved to false as the claim states, it is resolved to the
fallback's verdict (lines 571-573). -/
theorem c5_counterexample :
    compareEmbeddings true c5verifyErr true c5scoreHigh (0, [65]) (1, [66]) = true := by
  simp [compareEmbeddings, c5verifyErr, fallbackSpeakerComparison, c5scoreHigh]
  norm_num

/-- C5 (amended): the comparison is total — it produces a Bool on every
input, errors of the collaborators never propagate — and failures
cascade: a verifier error falls back to the acoustic heuristic for that
pair, the heuristic resolves missing dependencies or a failed score
computation to false, so when every internal computation fails the
result is false (different speakers). -/
theorem c5_totality_amended (verify acScore : AudioRef → AudioRef → Except String ℚ)
    (deps : Bool) (a b : AudioRef) :
    (∀ e, verify a b = .error e →
      compareEmbeddings true verify deps acScore a b =
        fallbackSpeakerComparison deps acScore a b) ∧
    (compareEmbeddings false verify deps acScore a b =
      fallbackSpeakerComparison deps acScore a b) ∧
    (fallbackSpeakerComparison false acScore a b = false) ∧
    (∀ e, acScore a b = .error e → fallbackSpeakerComparison deps acScore a b = false) := by
  refine ⟨?_, ?_, ?_, ?_⟩
  · intro e he
    simp [compareEmbeddings, he]
  · simp [compareEmbeddings]
  · simp [fallbackSpeakerComparison]
  · intro e he
    cases deps
    · simp [fallbackSpeakerComparison]
    · simp [fallbackSpeakerComparison, he]

/-- C5 witness: the amended cascade evaluated with everything failing. -/
theorem c5_totality_amended_witness :
    compareEmbeddings true c5verifyErr false c5verifyErr (0, [65]) (1, [66]) =
      fallbackSpeakerComparison false c5verifyErr (0, [65]) (1, [66]) ∧
    fallbackSpeakerComparison false c5verifyErr (0, [65]) (1, [66]) = false :=
  ⟨(c5_totality_amended c5verifyErr c5verifyErr false (0, [65]) (1, [66])).1
     "CUDA error" (by decide),
   (c5_totality_amended c5verifyErr c5verifyErr false (0, [65]) (1, [66])).2.2.1⟩

/-- A verifier that raises exactly on pairs whose first clip comes from
audio file 0, for the C6 counterexample. -/
def c6verifyMixed : AudioRef → AudioRef → Except String ℚ := fun a _ =>
  if a.1 = 0 then .error "CUDA out of memory" else .ok 1

/-- C6 counterexample: with the embedding model available for the whole
run, two comparisons of the same run are decided by different oracle
implementations — the first falls back to the acoustic heuristic because
the verifier raises on that pair (lines 571-573), the second is decided
by the embedding score — so the oracle choice is re-evaluated per
comparison instead of being fixed once per run. -/
theorem c6_counterexample :
    oracleUsedFor true c6verifyMixed (0, [65]) (2, [67]) = "heuristic" ∧
    oracleUsedFor true c6verifyMixed (1, [66]) (2, [67]) = "embedding" := by decide

/-- C6 (amended): the per-run flag `is_nemo_available` is fixed for the
run and is recorded in the result metadata as the boolean
`nemo_available` (line 741) — there is no `oracle_used` string field;
when the flag is false every comparison is decided by the acoustic
heuristic; when it is true a comparison whose verifier call succeeds is
decided by the embedding score, but one whose verifier call raises falls
back to the heuristic for that pair only. -/
theorem c6_oracle_amended :
    (∀ (verify acScore : AudioRef → AudioRef → Except String ℚ) (deps : Bool)
        (a b : AudioRef),
      oracleUsedFor false verify a b = "heuristic" ∧
      compareEmbeddings false verify deps acScore a b =
        fallbackSpeakerComparison deps acScore a b) ∧
    (∀ (verify : AudioRef → AudioRef → Except String ℚ) (a b : AudioRef) (s : ℚ),
      verify a b = .ok s → oracleUsedFor true verify a b = "embedding") ∧
    (∀ (verify : AudioRef → AudioRef → Except String ℚ) (a b : AudioRef) (e : String),
      verify a b = .error e → oracleUsedFor true verify a b = "heuristic") ∧
    (∀ (co : Collaborators) (tids audioFiles : List Nat) (r : DiarizationResult),
      processClipsAsync co tids audioFiles = .ok r → r.nemoAvailable = co.nemoAvailable) := by
  refine ⟨?_, ?_, ?_, ?_⟩
  · intro verify acScore deps a b
    exact ⟨rfl, rfl⟩
  · intro verify a b s h
    simp [oracleUsedFor, h]
  · intro verify a b e h
    simp [oracleUsedFor, h]
  · intro co tids audioFiles r h
    unfold processClipsAsync at h
    cases hb : processClipsAsyncBody co tids audioFiles with
    | error e =>
      rw [hb] at h
      exact absurd h (by simp)
    | ok r2 =>
      rw [hb] at h
      have hr2 : r2 = r := Except.ok.inj h
      subst hr2
      unfold processClipsAsyncBody at hb
      by_cases hl : tids.length ≠ audioFiles.length
      · rw [if_pos hl] at hb
        exact absurd hb (by simp)
      · rw [if_neg hl] at hb
        cases hr : runClips co (tids.zip audioFiles) 0 ⟨[], [], []⟩ with
        | error e =>
          rw [hr] at hb
          exact absurd hb (by simp)
        | ok st =>
          rw [hr] at hb
          have := Except.ok.inj hb
          rw [← this]

/-- Collaborator fixture for the C6 witness: embedding model flagged
available, one clip, one speaker. -/
def c6co : Collaborators :=
  { nemoAvailable := true
    verifySpeakers := fun _ _ => .error "model not loaded"
    depsAvailable := false
    acousticScore := fun _ _ => .error "no deps"
    fetchTranscript := fun _ => .ok [⟨[65], 0, 10, "a", none⟩]
    sampleSpeaker := fun _ _ => .ok true }

/-- The result of running the pipeline on the C6 fixture. -/
def c6r : DiarizationResult :=
  { success := true
    totalClipsProcessed := 1
    clipUtterances := [(0, [⟨[65], 0, 10, "a", some [65]⟩])]
    speakerIdentityMap := [([65], [65])]
    uniqueSpeakers := [[65]]
    nemoAvailable := true }

/-- C6 witness: the amended statement evaluated on concrete inputs. -/
theorem c6_oracle_amended_witness :
    oracleUsedFor false c6verifyMixed (0, [65]) (1, [66]) = "heuristic" ∧
    oracleUsedFor true (fun _ _ => .ok 1) (0, [65]) (1, [66]) = "embedding" ∧
    c6r.nemoAvailable = c6co.nemoAvailable :=
  ⟨(c6_oracle_amended.1 c6verifyMixed c6verifyMixed false (0, [65]) (1, [66])).1,
   c6_oracle_amended.2.1 (fun _ _ => .ok 1) (0, [65]) (1, [66]) 1 rfl,
   c6_oracle_amended.2.2.2 c6co [0] [0] c6r (by decide)⟩

/-- C7 (code_bug): the cleanup evaluated at the failing input.  The clip
created for audio file "/data/audio/meeting.wav" is exported to
directory "/data/audio/speaker_clips" (lines 461-467) and its base name
matches the cleanup glob, yet a successful run whose working directory
is "/data" removes nothing because `glob.glob("*_monologue_*.wav")`
at line 874 only sees the working directory, and a failed run never
reaches the cleanup call at line 730 at all. -/
theorem c7_cleanup_misses_files :
    matchesMonologueGlob (clipFileFor (strCodes "/data/audio") (strCodes "A") 0 5000).name = true ∧
    tempFilesAfterRun true (strCodes "/data")
      [clipFileFor (strCodes "/data/audio") (strCodes "A") 0 5000] =
      [clipFileFor (strCodes "/data/audio") (strCodes "A") 0 5000] ∧
    tempFilesAfterRun false (strCodes "/data")
      [clipFileFor (strCodes "/data/audio") (strCodes "A") 0 5000] =
      [clipFileFor (strCodes "/data/audio") (strCodes "A") 0 5000] := by decide

/-- Collaborator fixture for C4: every transcript fetch succeeds with one
utterance. -/
def c4co : Collaborators :=
  { nemoAvailable := false
    verifySpeakers := fun _ _ => .error "nemo unavailable"
    depsAvailable := false
    acousticScore := fun _ _ => .error "deps unavailable"
    fetchTranscript := fun _ => .ok [⟨[65], 0, 10, "hello", none⟩]
    sampleSpeaker := fun _ _ => .ok true }

/-- Collaborator fixture for C4 whose transcript fetch raises, as
`get_transcript` does when AssemblyAI reports an error status. -/
def c4coFail : Collaborators :=
  { c4co with
    fetchTranscript := fun _ => .error "Transcription failed: audio could not be decoded" }

/-- C4 counterexample: (i) on mismatched counts the escaping exception is
ProcessingError, since the ValidationError of line 647 is swallowed by the
catch-all at lines 756-765 and re-raised wrapped; (ii) an empty clip
list raises nothing and returns a successful empty result instead of
ValidationError; (iii) a per-clip transcript failure is not absorbed as
data: it aborts the whole run with ProcessingError. -/
theorem c4_counterexample :
    processClipsAsync c4co [0] [] =
      .error (.processingError
        "Async speaker diarization failed: Number of transcript IDs must match number of audio files") ∧
    processClipsAsync c4co [] [] =
      .ok { success := true, totalClipsProcessed := 0, clipUtterances := [],
            speakerIdentityMap := [], uniqueSpeakers := [], nemoAvailable := false } ∧
    processClipsAsync c4coFail [0] [0] =
      .error (.processingError
        "Async speaker diarization failed: Transcription failed: audio could not be decoded") := by
  refine ⟨by decide, by decide, by decide⟩

/-- C4 (amended): the pipeline aborts before processing any clip on
mismatched transcript/audio counts, but the exception that escapes is
ProcessingError wrapping the validation message; no call ever escapes as
ValidationError; and an empty clip list is not rejected — it yields a
successful result with zero clips. -/
theorem c4_propagation_amended (co : Collaborators) (tids audioFiles : List Nat) :
    (tids.length ≠ audioFiles.length →
      processClipsAsync co tids audioFiles =
        .error (.processingError
          "Async speaker diarization failed: Number of transcript IDs must match number of audio files")) ∧
    (∀ msg, processClipsAsync co tids audioFiles ≠ .error (.validationError msg)) ∧
    (tids = [] → audioFiles = [] →
      processClipsAsync co tids audioFiles =
        .ok { success := true, totalClipsProcessed := 0, clipUtterances := [],
              speakerIdentityMap := [], uniqueSpeakers := [],
              nemoAvailable := co.nemoAvailable }) := by
  refine ⟨?_, ?_, ?_⟩
  · intro h
    unfold processClipsAsync processClipsAsyncBody
    rw [if_pos h]
    rfl
  · intro msg
    unfold processClipsAsync
    cases processClipsAsyncBody co tids audioFiles with
    | ok r => simp
    | error e => simp
  · intro h1 h2
    subst h1
    subst h2
    rfl

/-- Relation between the retained monologue list of a speaker and that
speaker's full candidate-run list: either no run was finalized yet and
both are empty, or exactly one entry is retained, it is one of the
candidates, and its recorded length bounds every candidate's length. -/
def retainedRel (l c : List (Int × Mono)) : Prop :=
  (c = [] ∧ l = []) ∨ (∃ m, l = [m] ∧ m ∈ c ∧ ∀ e ∈ c, e.1 ≤ m.1)

/-- Lift of `retainedRel` to optional dict lookups. -/
def retainedRelOpt : Option (List (Int × Mono)) → Option (List (Int × Mono)) → Prop
  | none, none => True
  | some l, some c => retainedRel l c
  | _, _ => False

/-- The coupling invariant between the retained-monologue dict and the
candidate-run dict. -/
def monoInv (lg cg : PyDict Label (List (Int × Mono))) : Prop :=
  ∀ s, retainedRelOpt (dictGet lg s) (dictGet cg s)

theorem keepLongest_single (m e : Int × Mono) :
    keepLongest [m] e = if e.1 > m.1 then [e] else [m] := by
  by_cases h : e.1 > m.1
  · simp [keepLongest, pyMinFst, h, List.erase_cons_head]
  · simp [keepLongest, pyMinFst, h]

theorem retainedRel_push (l c : List (Int × Mono)) (e : Int × Mono)
    (h : retainedRel l c) : retainedRel (keepLongest l e) (c ++ [e]) := by
  rcases h with ⟨hc, hl⟩ | ⟨m, hl, hm, hb⟩
  · subst hc
    subst hl
    refine Or.inr ⟨e, rfl, by simp, ?_⟩
    intro x hx
    simp at hx
    subst hx
    exact le_refl _
  · subst hl
    rw [keepLongest_single]
    by_cases he : e.1 > m.1
    · rw [if_pos he]
      refine Or.inr ⟨e, rfl, by simp, ?_⟩
      intro x hx
      rcases List.mem_append.mp hx with hx | hx
      · exact le_of_lt (lt_of_le_of_lt (hb x hx) he)
      · simp at hx
        subst hx
        exact le_refl _
    · rw [if_neg he]
      refine Or.inr ⟨m, rfl, List.mem_append_left _ hm, ?_⟩
      intro x hx
      rcases List.mem_append.mp hx with hx | hx
      · exact hb x hx
      · simp at hx
        subst hx
        exact not_lt.mp he

theorem monoInv_set (lg cg : PyDict Label (List (Int × Mono))) (sp : Label)
    (l2 c2 : List (Int × Mono)) (hinv : monoInv lg cg)
    (h2 : retainedRel l2 c2) : monoInv (dictSet lg sp l2) (dictSet cg sp c2) := by
  intro s
  by_cases hs : s = sp
  · subst hs
    rw [dictGet_dictSet_self, dictGet_dictSet_self]
    exact h2
  · rw [dictGet_dictSet_ne lg sp s l2 hs, dictGet_dictSet_ne cg sp s c2 hs]
    exact hinv s

theorem monoInv_getD (lg cg : PyDict Label (List (Int × Mono))) (sp : Label)
    (hinv : monoInv lg cg) :
    retainedRel ((dictGet lg sp).getD []) ((dictGet cg sp).getD []) := by
  have h := hinv sp
  cases hl : dictGet lg sp <;> cases hc : dictGet cg sp <;>
    rw [hl, hc] at h <;> simp [retainedRelOpt] at h ⊢
  · exact Or.inl ⟨rfl, rfl⟩
  · exact h

theorem monoInv_empty : monoInv [] [] := by
  intro s
  simp [dictGet, retainedRelOpt]

theorem monoStep_coupling (stL stC : MonoState) (u : Utt)
    (hcur : stL.current = stC.current) (hlast : stL.lastSpeaker = stC.lastSpeaker)
    (hinv : monoInv stL.longest stC.longest) :
    (monoStep stL u).current = (candStep stC u).current ∧
    (monoStep stL u).lastSpeaker = (candStep stC u).lastSpeaker ∧
    monoInv (monoStep stL u).longest (candStep stC u).longest := by
  cases hg : dictGet stL.current u.speaker with
  | none =>
    have hg2 : dictGet stC.current u.speaker = none := by rw [← hcur]; exact hg
    refine ⟨?_, ?_, ?_⟩
    · simp only [monoStep, candStep, hg, hg2, hcur]
    · simp only [monoStep, candStep, hg, hg2]
    · simp only [monoStep, candStep, hg, hg2]
      exact monoInv_set _ _ _ _ _ hinv (Or.inl ⟨rfl, rfl⟩)
  | some cm =>
    have hg2 : dictGet stC.current u.speaker = some cm := by rw [← hcur]; exact hg
    by_cases hcond : cm.stop = u.start ∧ stL.lastSpeaker = some u.speaker
    · have hcond2 : cm.stop = u.start ∧ stC.lastSpeaker = some u.speaker := by
        rw [← hlast]
        exact hcond
      refine ⟨?_, ?_, ?_⟩
      · simp only [monoStep, candStep, hg, hg2, if_pos hcond, if_pos hcond2, hcur]
      · simp only [monoStep, candStep, hg, hg2, if_pos hcond, if_pos hcond2]
      · simp only [monoStep, candStep, hg, hg2, if_pos hcond, if_pos hcond2]
        exact hinv
    · have hcond2 : ¬(cm.stop = u.start ∧ stC.lastSpeaker = some u.speaker) := by
        rw [← hlast]
        exact hcond
      refine ⟨?_, ?_, ?_⟩
      · simp only [monoStep, candStep, hg, hg2, if_neg hcond, if_neg hcond2, hcur]
      · simp only [monoStep, candStep, hg, hg2, if_neg hcond, if_neg hcond2]
      · simp only [monoStep, candStep, hg, hg2, if_neg hcond, if_neg hcond2]
        exact monoInv_set _ _ _ _ _ hinv (retainedRel_push _ _ _ (monoInv_getD _ _ _ hinv))

theorem monoFoldl_coupling (utts : List Utt) :
    ∀ (stL stC : MonoState), stL.current = stC.current →
    stL.lastSpeaker = stC.lastSpeaker → monoInv stL.longest stC.longest →
    (utts.foldl monoStep stL).current = (utts.foldl candStep stC).current ∧
    (utts.foldl monoStep stL).lastSpeaker = (utts.foldl candStep stC).lastSpeaker ∧
    monoInv (utts.foldl monoStep stL).longest (utts.foldl candStep stC).longest := by
  induction utts with
  | nil => exact fun stL stC h1 h2 h3 => ⟨h1, h2, h3⟩
  | cons u rest ih =>
    intro stL stC h1 h2 h3
    have h := monoStep_coupling stL stC u h1 h2 h3
    simpa using ih (monoStep stL u) (candStep stC u) h.1 h.2.1 h.2.2

theorem finalize_fold_coupling (cur : List (Label × Mono)) :
    ∀ (lg cg : PyDict Label (List (Int × Mono))), monoInv lg cg →
    monoInv
      (cur.foldl (fun lg2 p =>
        dictSet lg2 p.1 (keepLongest ((dictGet lg2 p.1).getD [])
          (p.2.stop - p.2.start, p.2))) lg)
      (cur.foldl (fun lg2 p =>
        dictSet lg2 p.1 (((dictGet lg2 p.1).getD []) ++
          [(p.2.stop - p.2.start, p.2)])) cg) := by
  induction cur with
  | nil => exact fun lg cg h => h
  | cons p rest ih =>
    intro lg cg h
    exact ih _ _ (monoInv_set _ _ _ _ _ h (retainedRel_push _ _ _ (monoInv_getD _ _ _ h)))

theorem monoInv_findLongest (utts : List Utt) :
    monoInv (findLongestMonologues utts) (candidateRuns utts) := by
  have h := monoFoldl_coupling utts ⟨[], [], none⟩ ⟨[], [], none⟩ rfl rfl monoInv_empty
  unfold findLongestMonologues candidateRuns monoFinalize candFinalize
  rw [h.1]
  exact finalize_fold_coupling _ _ _ h.2.2

/-- C9: monologue extraction retains at most one monologue per speaker,
and the retained monologue's recorded length is greater than or equal to
the recorded length of every candidate contiguous run of that speaker. -/
theorem c9_monologue_retention (utts : List Utt) (s : Label) :
    (∀ lst, dictGet (findLongestMonologues utts) s = some lst → lst.length ≤ 1) ∧
    (∀ lst m cl c, dictGet (findLongestMonologues utts) s = some lst → m ∈ lst →
      dictGet (candidateRuns utts) s = some cl → c ∈ cl → c.1 ≤ m.1) := by
  have hs := monoInv_findLongest utts s
  constructor
  · intro lst hl
    rw [hl] at hs
    cases hc : dictGet (candidateRuns utts) s with
    | none =>
      rw [hc] at hs
      exact absurd hs (by simp [retainedRelOpt])
    | some cl =>
      rw [hc] at hs
      rcases hs with ⟨_, hle⟩ | ⟨m, hle, _, _⟩
      · simp [hle]
      · simp [hle]
  · intro lst m cl c hl hm hc hcin
    rw [hl, hc] at hs
    rcases hs with ⟨hce, hle⟩ | ⟨m2, hle, hmem, hb⟩
    · subst hle
      simp at hm
    · subst hle
      have hm2 : m = m2 := List.mem_singleton.mp hm
      subst hm2
      exact hb c hcin

/-- Fixture clip for the C9 witness: speaker A has two candidate runs of
lengths 10 and 30, interrupted by speaker B. -/
def c9utts : List Utt :=
  [⟨[65], 0, 10, "x", none⟩, ⟨[66], 10, 20, "y", none⟩, ⟨[65], 20, 50, "z", none⟩]

/-- C9 witness: on the fixture clip the retained monologue for speaker A
is the 30 ms run and it bounds the other candidate run. -/
theorem c9_monologue_retention_witness :
    dictGet (findLongestMonologues c9utts) [65] = some [(30, ⟨20, 50⟩)] ∧
    ((10 : Int), (⟨0, 10⟩ : Mono)).1 ≤ ((30 : Int), (⟨20, 50⟩ : Mono)).1 :=
  ⟨by decide,
   (c9_monologue_retention c9utts [65]).2 [(30, ⟨20, 50⟩)] (30, ⟨20, 50⟩)
     [(10, ⟨0, 10⟩), (30, ⟨20, 50⟩)] (10, ⟨0, 10⟩)
     (by decide) (by decide) (by decide) (by decide)⟩

/-- The clip-local speaker labels occurring in a clip's utterance list. -/
def speakersOf (utts : List Utt) : List Label := utts.map (·.speaker)

theorem mem_keys_resolveSpeaker (compare : AudioRef → AudioRef → Bool)
    (prev : PyDict Label AudioRef) (m : PyDict Label Label) (s : Label)
    (c : AudioRef) (a : Label) :
    a ∈ dictKeys (resolveSpeaker compare prev m s c) ↔ a = s ∨ a ∈ dictKeys m := by
  unfold resolveSpeaker
  cases findMatch compare m c prev
  · exact mem_keys_dictSet m s a _
  · exact mem_keys_dictSet m s a _

theorem keys_nodup_resolveSpeaker (compare : AudioRef → AudioRef → Bool)
    (prev : PyDict Label AudioRef) (m : PyDict Label Label) (s : Label)
    (c : AudioRef) (h : (dictKeys m).Nodup) :
    (dictKeys (resolveSpeaker compare prev m s c)).Nodup := by
  unfold resolveSpeaker
  cases findMatch compare m c prev
  · exact keys_nodup_dictSet m s _ h
  · exact keys_nodup_dictSet m s _ h

theorem dictGet_resolveSpeaker_ne (compare : AudioRef → AudioRef → Bool)
    (prev : PyDict Label AudioRef) (m : PyDict Label Label) (s : Label)
    (c : AudioRef) (a : Label) (h : a ≠ s) :
    dictGet (resolveSpeaker compare prev m s c) a = dictGet m a := by
  unfold resolveSpeaker
  cases findMatch compare m c prev
  · exact dictGet_dictSet_ne m s a _ h
  · exact dictGet_dictSet_ne m s a _ h

theorem mem_keys_resolveAll (compare : AudioRef → AudioRef → Bool)
    (prev : PyDict Label AudioRef) :
    ∀ (cur : List (Label × AudioRef)) (m : PyDict Label Label) (a : Label),
    a ∈ dictKeys (resolveAll compare prev m cur) → a ∈ dictKeys m ∨ a ∈ dictKeys cur := by
  intro cur
  induction cur with
  | nil => exact fun m a h => Or.inl h
  | cons p rest ih =>
    intro m a h
    obtain ⟨s, c⟩ := p
    rcases ih (resolveSpeaker compare prev m s c) a h with h1 | h1
    · rcases (mem_keys_resolveSpeaker compare prev m s c a).mp h1 with h2 | h2
      · exact Or.inr (by simp [dictKeys, h2])
      · exact Or.inl h2
    · exact Or.inr (by simp [dictKeys] at h1 ⊢; tauto)

theorem keys_nodup_resolveAll (compare : AudioRef → AudioRef → Bool)
    (prev : PyDict Label AudioRef) :
    ∀ (cur : List (Label × AudioRef)) (m : PyDict Label Label),
    (dictKeys m).Nodup → (dictKeys (resolveAll compare prev m cur)).Nodup := by
  intro cur
  induction cur with
  | nil => exact fun m h => h
  | cons p rest ih =>
    intro m h
    obtain ⟨s, c⟩ := p
    exact ih _ (keys_nodup_resolveSpeaker compare prev m s c h)

theorem dictGet_resolveAll_not_mem (compare : AudioRef → AudioRef → Bool)
    (prev : PyDict Label AudioRef) :
    ∀ (cur : List (Label × AudioRef)) (m : PyDict Label Label) (a : Label),
    a ∉ dictKeys cur → dictGet (resolveAll compare prev m cur) a = dictGet m a := by
  intro cur
  induction cur with
  | nil => exact fun m a _ => rfl
  | cons p rest ih =>
    intro m a h
    obtain ⟨s, c⟩ := p
    rw [dictKeys_cons] at h
    have h1 : a ≠ s := fun he => h (by simp [he])
    have h2 : a ∉ dictKeys rest := fun hm => h (by simp [hm])
    rw [show resolveAll compare prev m ((s, c) :: rest) =
          resolveAll compare prev (resolveSpeaker compare prev m s c) rest from rfl,
       ih _ a h2, dictGet_resolveSpeaker_ne compare prev m s c a h1]

theorem mem_keys_buildCurrentClips (sample : Nat → Label → Except String Bool)
    (audioFile : Nat) :
    ∀ (lst : List (Label × List (Int × Mono))) (cur : PyDict Label AudioRef),
    buildCurrentClips sample audioFile lst = .ok cur →
    ∀ a, a ∈ dictKeys cur → a ∈ dictKeys lst := by
  intro lst
  induction lst with
  | nil =>
    intro cur h a ha
    have : cur = [] := (Except.ok.inj h).symm
    subst this
    simp [dictKeys] at ha
  | cons p rest ih =>
    intro cur h a ha
    obtain ⟨s, md⟩ := p
    unfold buildCurrentClips at h
    cases hs : sample audioFile s with
    | error e => rw [hs] at h; exact absurd h (by simp)
    | ok produced =>
      rw [hs] at h
      cases ht : buildCurrentClips sample audioFile rest with
      | error e => rw [ht] at h; exact absurd h (by simp)
      | ok tail =>
        rw [ht] at h
        have hc := Except.ok.inj h
        cases produced with
        | false =>
          simp at hc
          subst hc
          exact List.mem_cons_of_mem _ (ih tail ht a ha)
        | true =>
          simp at hc
          subst hc
          rw [dictKeys_cons] at ha
          rcases List.mem_cons.mp ha with h1 | h1
          · simp [dictKeys, h1]
          · exact List.mem_cons_of_mem _ (ih tail ht a h1)

theorem mem_keys_monoStep_longest (st : MonoState) (u : Utt) (a : Label)
    (h : a ∈ dictKeys ((monoStep st u).longest)) :
    a = u.speaker ∨ a ∈ dictKeys st.longest := by
  cases hg : dictGet st.current u.speaker with
  | none =>
    simp only [monoStep, hg] at h
    exact (mem_keys_dictSet _ _ _ _).mp h
  | some cm =>
    by_cases hcond : cm.stop = u.start ∧ st.lastSpeaker = some u.speaker
    · simp only [monoStep, hg, if_pos hcond] at h
      exact Or.inr h
    · simp only [monoStep, hg, if_neg hcond] at h
      exact (mem_keys_dictSet _ _ _ _).mp h

theorem mem_keys_monoStep_current (st : MonoState) (u : Utt) (a : Label)
    (h : a ∈ dictKeys ((monoStep st u).current)) :
    a = u.speaker ∨ a ∈ dictKeys st.current := by
  cases hg : dictGet st.current u.speaker with
  | none =>
    simp only [monoStep, hg] at h
    exact (mem_keys_dictSet _ _ _ _).mp h
  | some cm =>
    by_cases hcond : cm.stop = u.start ∧ st.lastSpeaker = some u.speaker
    · simp only [monoStep, hg, if_pos hcond] at h
      exact (mem_keys_dictSet _ _ _ _).mp h
    · simp only [monoStep, hg, if_neg hcond] at h
      exact (mem_keys_dictSet _ _ _ _).mp h

theorem mem_keys_monoFoldl (utts : List Utt) :
    ∀ (st : MonoState) (a : Label),
    (a ∈ dictKeys ((utts.foldl monoStep st).longest) →
      a ∈ dictKeys st.longest ∨ a ∈ speakersOf utts) ∧
    (a ∈ dictKeys ((utts.foldl monoStep st).current) →
      a ∈ dictKeys st.current ∨ a ∈ speakersOf utts) := by
  induction utts with
  | nil => exact fun st a => ⟨Or.inl, Or.inl⟩
  | cons u rest ih =>
    intro st a
    constructor
    · intro h
      rcases (ih (monoStep st u) a).1 h with h1 | h1
      · rcases mem_keys_monoStep_longest st u a h1 with h2 | h2
        · exact Or.inr (by simp [speakersOf, h2])
        · exact Or.inl h2
      · exact Or.inr (by simp [speakersOf] at h1 ⊢; tauto)
    · intro h
      rcases (ih (monoStep st u) a).2 h with h1 | h1
      · rcases mem_keys_monoStep_current st u a h1 with h2 | h2
        · exact Or.inr (by simp [speakersOf, h2])
        · exact Or.inl h2
      · exact Or.inr (by simp [speakersOf] at h1 ⊢; tauto)

theorem mem_keys_monoFinalize_fold :
    ∀ (cur : List (Label × Mono)) (lg : PyDict Label (List (Int × Mono))) (a : Label),
    a ∈ dictKeys (cur.foldl (fun lg2 p =>
      dictSet lg2 p.1 (keepLongest ((dictGet lg2 p.1).getD [])
        (p.2.stop - p.2.start, p.2))) lg) →
    a ∈ dictKeys lg ∨ a ∈ dictKeys cur := by
  intro cur
  induction cur with
  | nil => exact fun lg a h => Or.inl h
  | cons p rest ih =>
    intro lg a h
    rcases ih _ a h with h1 | h1
    · rcases (mem_keys_dictSet _ _ _ _).mp h1 with h2 | h2
      · exact Or.inr (by simp [dictKeys, h2])
      · exact Or.inl h2
    · exact Or.inr (by simp [dictKeys] at h1 ⊢; tauto)

theorem exists_utt_of_mem_keys_findLongest (utts : List Utt) (a : Label)
    (h : a ∈ dictKeys (findLongestMonologues utts)) :
    ∃ u ∈ utts, u.speaker = a := by
  unfold findLongestMonologues monoFinalize at h
  have h2 := mem_keys_monoFinalize_fold _ _ a h
  have h3 : a ∈ speakersOf utts := by
    rcases h2 with h2 | h2
    · rcases (mem_keys_monoFoldl utts ⟨[], [], none⟩ a).1 h2 with h4 | h4
      · simp [dictKeys] at h4
      · exact h4
    · rcases (mem_keys_monoFoldl utts ⟨[], [], none⟩ a).2 h2 with h4 | h4
      · simp [dictKeys] at h4
      · exact h4
  rcases List.mem_map.mp h3 with ⟨u, hu, he⟩
  exact ⟨u, hu, he⟩

theorem keys_nodup_monoStep_longest (st : MonoState) (u : Utt)
    (h : (dictKeys st.longest).Nodup) : (dictKeys ((monoStep st u).longest)).Nodup := by
  cases hg : dictGet st.current u.speaker with
  | none =>
    simp only [monoStep, hg]
    exact keys_nodup_dictSet _ _ _ h
  | some cm =>
    by_cases hcond : cm.stop = u.start ∧ st.lastSpeaker = some u.speaker
    · simp only [monoStep, hg, if_pos hcond]
      exact h
    · simp only [monoStep, hg, if_neg hcond]
      exact keys_nodup_dictSet _ _ _ h

theorem keys_nodup_monoFoldl (utts : List Utt) :
    ∀ (st : MonoState), (dictKeys st.longest).Nodup →
    (dictKeys ((utts.foldl monoStep st).longest)).Nodup := by
  induction utts with
  | nil => exact fun st h => h
  | cons u rest ih => exact fun st h => ih _ (keys_nodup_monoStep_longest st u h)

theorem keys_nodup_monoFinalize_fold :
    ∀ (cur : List (Label × Mono)) (lg : PyDict Label (List (Int × Mono))),
    (dictKeys lg).Nodup →
    (dictKeys (cur.foldl (fun lg2 p =>
      dictSet lg2 p.1 (keepLongest ((dictGet lg2 p.1).getD [])
        (p.2.stop - p.2.start, p.2))) lg)).Nodup := by
  intro cur
  induction cur with
  | nil => exact fun lg h => h
  | cons p rest ih => exact fun lg h => ih _ (keys_nodup_dictSet _ _ _ h)

theorem keys_nodup_findLongest (utts : List Utt) :
    (dictKeys (findLongestMonologues utts)).Nodup := by
  unfold findLongestMonologues monoFinalize
  exact keys_nodup_monoFinalize_fold _ _
    (keys_nodup_monoFoldl utts ⟨[], [], none⟩ (by simp [dictKeys]))

theorem dictGet_diag (l : List (Label × List (Int × Mono))) (k v : Label)
    (h : dictGet (l.map (fun p => (p.1, p.1))) k = some v) :
    v = k ∧ k ∈ dictKeys l := by
  induction l with
  | nil => simp [dictGet] at h
  | cons p rest ih =>
    by_cases hp : p.1 = k
    · rw [List.map_cons] at h
      simp only [dictGet, hp, if_pos] at h
      exact ⟨(Option.some.inj h).symm, by simp [dictKeys, hp]⟩
    · rw [List.map_cons] at h
      simp only [dictGet, hp, if_neg, if_false] at h
      rcases ih h with ⟨h1, h2⟩
      exact ⟨h1, by simp [dictKeys] at h2 ⊢; tauto⟩

theorem keys_diag (l : List (Label × List (Int × Mono))) :
    dictKeys (l.map (fun p => (p.1, p.1))) = dictKeys l := by
  simp [dictKeys, List.map_map]

theorem applyIdentityStep_clipUtterances (co : Collaborators) (idx : Nat)
    (lm : PyDict Label (List (Int × Mono))) (cur : PyDict Label AudioRef)
    (st : RunState) :
    (applyIdentityStep co idx lm cur st).clipUtterances = st.clipUtterances := by
  unfold applyIdentityStep
  by_cases h : idx = 0
  · rw [if_pos h]
  · rw [if_neg h]

theorem applyIdentityStep_map_zero (co : Collaborators)
    (lm : PyDict Label (List (Int × Mono))) (cur : PyDict Label AudioRef)
    (st : RunState) :
    (applyIdentityStep co 0 lm cur st).speakerIdentityMap =
      lm.map (fun p => (p.1, p.1)) := rfl

theorem applyIdentityStep_map_pos (co : Collaborators) (idx : Nat)
    (lm : PyDict Label (List (Int × Mono))) (cur : PyDict Label AudioRef)
    (st : RunState) (h : idx ≠ 0) :
    (applyIdentityStep co idx lm cur st).speakerIdentityMap =
      resolveAll (compareEmbeddings co.nemoAvailable co.verifySpeakers
        co.depsAvailable co.acousticScore) st.previousSpeakerClips
        st.speakerIdentityMap cur := by
  unfold applyIdentityStep
  rw [if_neg h]
  rfl

theorem processClip_of_isEmpty (co : Collaborators) (idx af : Nat) (utts : List Utt)
    (st : RunState) (h : utts.isEmpty = true) :
    processClip co idx af utts st = .ok st := by
  unfold processClip
  rw [if_pos h]

theorem processClip_of_lmEmpty (co : Collaborators) (idx af : Nat) (utts : List Utt)
    (st : RunState) (h1 : utts.isEmpty = false)
    (h2 : (findLongestMonologues utts).isEmpty = true) :
    processClip co idx af utts st = .ok (storeRaw idx utts st) := by
  unfold processClip
  rw [if_neg (by simp [h1]), if_pos h2]

theorem processClip_of_buildErr (co : Collaborators) (idx af : Nat) (utts : List Utt)
    (st : RunState) (e : String) (h1 : utts.isEmpty = false)
    (h2 : (findLongestMonologues utts).isEmpty = false)
    (h3 : buildCurrentClips co.sampleSpeaker af (findLongestMonologues utts) = .error e) :
    processClip co idx af utts st = .error e := by
  unfold processClip
  rw [if_neg (by simp [h1]), if_neg (by simp [h2]), h3]

theorem processClip_of_main (co : Collaborators) (idx af : Nat) (utts : List Utt)
    (st : RunState) (cur : PyDict Label AudioRef) (h1 : utts.isEmpty = false)
    (h2 : (findLongestMonologues utts).isEmpty = false)
    (h3 : buildCurrentClips co.sampleSpeaker af (findLongestMonologues utts) = .ok cur) :
    processClip co idx af utts st =
      .ok (annotateClipState idx utts
        (applyIdentityStep co idx (findLongestMonologues utts) cur
          (storeRaw idx utts st))) := by
  unfold processClip
  rw [if_neg (by simp [h1]), if_neg (by simp [h2]), h3]

/-- Every value currently in the identity map is the speaker label of
some already-annotated utterance stored in the clip dict. -/
def valuesReferenced (st : RunState) : Prop :=
  ∀ k v, dictGet st.speakerIdentityMap k = some v →
    ∃ ci utts u, dictGet st.clipUtterances ci = some utts ∧ u ∈ utts ∧ u.speaker = v

/-- All stored clip indices are below the next clip index. -/
def clipIndicesBelow (st : RunState) (n : Nat) : Prop :=
  ∀ ci ∈ dictKeys st.clipUtterances, ci < n

theorem processClip_inv (co : Collaborators) (idx af : Nat) (utts : List Utt)
    (st st2 : RunState) (hb : clipIndicesBelow st idx)
    (hn : (dictKeys st.speakerIdentityMap).Nodup) (hinv : valuesReferenced st)
    (h : processClip co idx af utts st = .ok st2) :
    clipIndicesBelow st2 (idx + 1) ∧ (dictKeys st2.speakerIdentityMap).Nodup ∧
    valuesReferenced st2 := by
  cases hemp : utts.isEmpty with
  | true =>
    rw [processClip_of_isEmpty co idx af utts st hemp] at h
    obtain rfl := Except.ok.inj h
    exact ⟨fun ci hci => Nat.lt_succ_of_lt (hb ci hci), hn, hinv⟩
  | false =>
    cases hlm : (findLongestMonologues utts).isEmpty with
    | true =>
      rw [processClip_of_lmEmpty co idx af utts st hemp hlm] at h
      obtain rfl := Except.ok.inj h
      refine ⟨?_, hn, ?_⟩
      · intro ci hci
        rcases (mem_keys_dictSet _ _ _ _).mp hci with h1 | h1
        · omega
        · exact Nat.lt_succ_of_lt (hb ci h1)
      · intro k v hk
        rcases hinv k v hk with ⟨ci, utts0, u, hci, hu, hsp⟩
        have hlt : ci < idx := hb ci (dictGet_mem_keys _ _ _ hci)
        refine ⟨ci, utts0, u, ?_, hu, hsp⟩
        rw [show (storeRaw idx utts st).clipUtterances =
              dictSet st.clipUtterances idx utts from rfl,
           dictGet_dictSet_ne _ _ _ _ (Nat.ne_of_lt hlt)]
        exact hci
    | false =>
      cases hcur : buildCurrentClips co.sampleSpeaker af (findLongestMonologues utts) with
      | error e =>
        rw [processClip_of_buildErr co idx af utts st e hemp hlm hcur] at h
        exact absurd h (by simp)
      | ok cur =>
        rw [processClip_of_main co idx af utts st cur hemp hlm hcur] at h
        obtain rfl := Except.ok.inj h
        have hAclip : (applyIdentityStep co idx (findLongestMonologues utts) cur
            (storeRaw idx utts st)).clipUtterances = dictSet st.clipUtterances idx utts :=
          applyIdentityStep_clipUtterances co idx _ cur _
        refine ⟨?_, ?_, ?_⟩
        · intro ci hci
          rcases (mem_keys_dictSet _ _ _ _).mp hci with h1 | h1
          · omega
          · rw [hAclip] at h1
            rcases (mem_keys_dictSet _ _ _ _).mp h1 with h2 | h2
            · omega
            · exact Nat.lt_succ_of_lt (hb ci h2)
        · show (dictKeys (applyIdentityStep co idx (findLongestMonologues utts) cur
            (storeRaw idx utts st)).speakerIdentityMap).Nodup
          by_cases hz : idx = 0
          · subst hz
            rw [applyIdentityStep_map_zero, keys_diag]
            exact keys_nodup_findLongest utts
          · rw [applyIdentityStep_map_pos co idx _ cur _ hz]
            exact keys_nodup_resolveAll _ _ cur _ hn
        · intro k v hk
          have hk2 : dictGet (applyIdentityStep co idx (findLongestMonologues utts) cur
              (storeRaw idx utts st)).speakerIdentityMap k = some v := hk
          by_cases hz : idx = 0
          · subst hz
            rw [applyIdentityStep_map_zero] at hk2
            rcases dictGet_diag _ k v hk2 with ⟨hv, hkin⟩
            rcases exists_utt_of_mem_keys_findLongest utts k hkin with ⟨u, hu, hus⟩
            refine ⟨0, _, annotateUtt (applyIdentityStep co 0 (findLongestMonologues utts)
              cur (storeRaw 0 utts st)).speakerIdentityMap u,
              dictGet_dictSet_self _ _ _, List.mem_map.mpr ⟨u, hu, rfl⟩, ?_⟩
            have hgu : dictGet (applyIdentityStep co 0 (findLongestMonologues utts) cur
                (storeRaw 0 utts st)).speakerIdentityMap u.speaker = some v := by
              rw [hus]
              exact hk
            simp [annotateUtt, hgu]
          · by_cases hkc : k ∈ dictKeys cur
            · rcases exists_utt_of_mem_keys_findLongest utts k
                (mem_keys_buildCurrentClips co.sampleSpeaker af _ cur hcur k hkc) with
                ⟨u, hu, hus⟩
              refine ⟨idx, _, annotateUtt (applyIdentityStep co idx
                (findLongestMonologues utts) cur (storeRaw idx utts st)).speakerIdentityMap u,
                dictGet_dictSet_self _ _ _, List.mem_map.mpr ⟨u, hu, rfl⟩, ?_⟩
              have hgu : dictGet (applyIdentityStep co idx (findLongestMonologues utts) cur
                  (storeRaw idx utts st)).speakerIdentityMap u.speaker = some v := by
                rw [hus]
                exact hk
              simp [annotateUtt, hgu]
            · rw [applyIdentityStep_map_pos co idx _ cur _ hz,
                dictGet_resolveAll_not_mem _ _ cur _ k hkc] at hk2
              rcases hinv k v hk2 with ⟨ci, utts0, u, hci, hu, hsp⟩
              have hlt : ci < idx := hb ci (dictGet_mem_keys _ _ _ hci)
              refine ⟨ci, utts0, u, ?_, hu, hsp⟩
              show dictGet (dictSet (applyIdentityStep co idx (findLongestMonologues utts)
                cur (storeRaw idx utts st)).clipUtterances idx
                (updateUtteranceSpeakers _ utts)) ci = some utts0
              rw [dictGet_dictSet_ne _ _ _ _ (Nat.ne_of_lt hlt), hAclip,
                dictGet_dictSet_ne _ _ _ _ (Nat.ne_of_lt hlt)]
              exact hci

theorem runClips_inv (co : Collaborators) :
    ∀ (pairs : List (Nat × Nat)) (idx : Nat) (st st2 : RunState),
    clipIndicesBelow st idx → (dictKeys st.speakerIdentityMap).Nodup →
    valuesReferenced st → runClips co pairs idx st = .ok st2 →
    (dictKeys st2.speakerIdentityMap).Nodup ∧ valuesReferenced st2 := by
  intro pairs
  induction pairs with
  | nil =>
    intro idx st st2 hb hn hinv h
    obtain rfl := Except.ok.inj h
    exact ⟨hn, hinv⟩
  | cons pr rest ih =>
    intro idx st st2 hb hn hinv h
    obtain ⟨tid, af⟩ := pr
    unfold runClips at h
    split at h
    · exact absurd h (by simp)
    · rename_i utts hf
      split at h
      · exact absurd h (by simp)
      · rename_i stMid hp
        have h3 := processClip_inv co idx af utts st stMid hb hn hinv hp
        exact ih (idx + 1) stMid st2 h3.1 h3.2.1 h3.2.2 h

theorem processClipsAsync_ok_inv (co : Collaborators) (tids audioFiles : List Nat)
    (r : DiarizationResult) (h : processClipsAsync co tids audioFiles = .ok r) :
    ∃ st, runClips co (tids.zip audioFiles) 0 ⟨[], [], []⟩ = .ok st ∧
      r = { success := true, totalClipsProcessed := tids.length,
            clipUtterances := st.clipUtterances,
            speakerIdentityMap := st.speakerIdentityMap,
            uniqueSpeakers := (dictValues st.speakerIdentityMap).dedup,
            nemoAvailable := co.nemoAvailable } := by
  unfold processClipsAsync at h
  cases hb : processClipsAsyncBody co tids audioFiles with
  | error e =>
    rw [hb] at h
    exact absurd h (by simp)
  | ok r2 =>
    rw [hb] at h
    obtain rfl := Except.ok.inj h
    unfold processClipsAsyncBody at hb
    by_cases hl : tids.length ≠ audioFiles.length
    · rw [if_pos hl] at hb
      exact absurd hb (by simp)
    · rw [if_neg hl] at hb
      cases hrun : runClips co (tids.zip audioFiles) 0 ⟨[], [], []⟩ with
      | error e =>
        rw [hrun] at hb
        exact absurd hb (by simp)
      | ok st =>
        rw [hrun] at hb
        exact ⟨st, rfl, (Except.ok.inj hb).symm⟩

/-- C2: after a successful run, every GlobalSpeakerId in the result's
unique_speakers list is the speaker label of at least one annotated
utterance in the result's per-clip utterance lists. -/
theorem c2_unique_speakers_referenced (co : Collaborators) (tids audioFiles : List Nat)
    (r : DiarizationResult) (h : processClipsAsync co tids audioFiles = .ok r) :
    ∀ v ∈ r.uniqueSpeakers, ∃ ci utts u,
      dictGet r.clipUtterances ci = some utts ∧ u ∈ utts ∧ u.speaker = v := by
  rcases processClipsAsync_ok_inv co tids audioFiles r h with ⟨st, hrun, hr⟩
  subst hr
  intro v hv
  have hmem : v ∈ dictValues st.speakerIdentityMap := List.mem_dedup.mp hv
  have hfin := runClips_inv co (tids.zip audioFiles) 0 ⟨[], [], []⟩ st
    (by intro ci hci; simp [dictKeys] at hci)
    (by simp [dictKeys])
    (by intro k v2 hk; simp [dictGet] at hk)
    hrun
  rcases exists_dictGet_of_mem_values _ v hfin.1 hmem with ⟨k, hk⟩
  exact hfin.2 k v hk

/-- Collaborator fixture for the C2 witness. -/
def c2co : Collaborators :=
  { nemoAvailable := false
    verifySpeakers := fun _ _ => .error "no nemo"
    depsAvailable := false
    acousticScore := fun _ _ => .error "no deps"
    fetchTranscript := fun _ => .ok [⟨[65], 0, 10, "a", none⟩]
    sampleSpeaker := fun _ _ => .ok true }

/-- The result of running the pipeline on the C2 fixture. -/
def c2r : DiarizationResult :=
  { success := true
    totalClipsProcessed := 1
    clipUtterances := [(0, [⟨[65], 0, 10, "a", some [65]⟩])]
    speakerIdentityMap := [([65], [65])]
    uniqueSpeakers := [[65]]
    nemoAvailable := false }

/-- C2 witness: the referenced-speaker property evaluated on a concrete
successful run. -/
theorem c2_unique_speakers_referenced_witness :
    ∃ ci utts u, dictGet c2r.clipUtterances ci = some utts ∧ u ∈ utts ∧
      u.speaker = [65] :=
  c2_unique_speakers_referenced c2co [0] [0] c2r (by decide) [65] (by decide)

theorem pyMaxLabel_mem (e : Label) (l : List Label) : pyMaxLabel e l ∈ e :: l := by
  induction l generalizing e with
  | nil => simp [pyMaxLabel]
  | cons x xs ih =>
    have h := ih (if labelKey x > labelKey e then x else e)
    rw [show pyMaxLabel e (x :: xs) =
          pyMaxLabel (if labelKey x > labelKey e then x else e) xs from rfl]
    rcases List.mem_cons.mp h with h1 | h1
    · rw [h1]
      by_cases hc : labelKey x > labelKey e
      · rw [if_pos hc]
        exact List.mem_cons_of_mem _ (List.mem_cons_self _ _)
      · rw [if_neg hc]
        exact List.mem_cons_self _ _
    · exact List.mem_cons_of_mem _ (List.mem_cons_of_mem _ h1)

theorem pyMaxLabel_le (e : Label) (l : List Label) :
    ∀ v ∈ e :: l, labelKey v ≤ labelKey (pyMaxLabel e l) := by
  induction l generalizing e with
  | nil =>
    intro v hv
    have h1 : v = e := by simpa using hv
    subst h1
    exact le_refl _
  | cons x xs ih =>
    intro v hv
    rw [show pyMaxLabel e (x :: xs) =
          pyMaxLabel (if labelKey x > labelKey e then x else e) xs from rfl]
    have hm : labelKey (if labelKey x > labelKey e then x else e) ≤
        labelKey (pyMaxLabel (if labelKey x > labelKey e then x else e) xs) :=
      ih _ _ (List.mem_cons_self _ _)
    have hme : labelKey e ≤ labelKey (if labelKey x > labelKey e then x else e) := by
      by_cases hc : labelKey x > labelKey e
      · rw [if_pos hc]
        exact le_of_lt hc
      · rw [if_neg hc]
    have hmx : labelKey x ≤ labelKey (if labelKey x > labelKey e then x else e) := by
      by_cases hc : labelKey x > labelKey e
      · rw [if_pos hc]
      · rw [if_neg hc]
        exact not_lt.mp hc
    rcases List.mem_cons.mp hv with h1 | h1
    · subst h1
      exact le_trans hme hm
    · rcases List.mem_cons.mp h1 with h2 | h2
      · subst h2
        exact le_trans hmx hm
      · exact ih _ v (List.mem_cons_of_mem _ h2)

theorem mintLabel_fresh (values : List Label) (B : Nat) (hB1 : 64 ≤ B) (hB2 : B ≤ 90)
    (h : ∀ v ∈ values, ∃ c, v = [c] ∧ 65 ≤ c ∧ c ≤ B) :
    ∃ cm, mintLabel values = [cm] ∧ 65 ≤ cm ∧ cm ≤ B + 1 ∧
      ∀ v ∈ values, ∀ c, v = [c] → c < cm := by
  cases hd : values.dedup with
  | nil =>
    have hv : values = [] := (List.dedup_eq_nil _).mp hd
    subst hv
    exact ⟨65, rfl, le_refl _, by omega, by simp⟩
  | cons e es =>
    have hlast_mem : pyMaxLabel e es ∈ values := by
      have h1 := pyMaxLabel_mem e es
      rw [← hd] at h1
      exact List.mem_dedup.mp h1
    rcases h _ hlast_mem with ⟨cmax, hceq, hc65, hcB⟩
    refine ⟨cmax + 1, ?_, by omega, by omega, ?_⟩
    · have halpha : pyIsAlpha cmax = true := by
        unfold pyIsAlpha
        simp
        omega
      unfold mintLabel
      rw [hd]
      simp [hceq, halpha]
    · intro v hv c hvc
      have hvd : v ∈ e :: es := by
        rw [← hd]
        exact List.mem_dedup.mpr hv
      have hle := pyMaxLabel_le e es v hvd
      rw [hceq] at hle
      subst hvc
      simp [labelKey] at hle
      omega

theorem mintLabel_not_mem_of_alpha (values : List Label)
    (h : ∀ v ∈ values, ∃ c, v = [c] ∧ pyIsAlpha c = true) :
    mintLabel values ∉ values := by
  cases hd : values.dedup with
  | nil =>
    have hv : values = [] := (List.dedup_eq_nil _).mp hd
    subst hv
    simp
  | cons e es =>
    have hlast_mem : pyMaxLabel e es ∈ values := by
      have h1 := pyMaxLabel_mem e es
      rw [← hd] at h1
      exact List.mem_dedup.mp h1
    rcases h _ hlast_mem with ⟨cmax, hceq, halpha⟩
    have hmint : mintLabel values = [cmax + 1] := by
      unfold mintLabel
      rw [hd]
      simp [hceq, halpha]
    rw [hmint]
    intro hmem
    have hled := pyMaxLabel_le e es [cmax + 1]
      (by rw [← hd]; exact List.mem_dedup.mpr hmem)
    rw [hceq] at hled
    simp [labelKey] at hled

theorem dictGet_ne_none_of_mem_keys {α β : Type} [DecidableEq α]
    (m : PyDict α β) (k : α) (h : k ∈ dictKeys m) : dictGet m k ≠ none := by
  induction m with
  | nil => simp [dictKeys] at h
  | cons p rest ih =>
    rw [dictKeys_cons] at h
    by_cases hp : p.1 = k
    · simp [dictGet, hp]
    · have h2 : k ∈ dictKeys rest := by
        rcases List.mem_cons.mp h with h1 | h1
        · exact absurd h1.symm hp
        · exact h1
      simp [dictGet, hp, ih h2]

/-- No speaker occurring in the remaining clips' transcripts is already a
key of the identity registry. -/
def freshClipSpeakers (co : Collaborators) (st : RunState)
    (pairs : List (Nat × Nat)) : Prop :=
  ∀ pr ∈ pairs, ∀ utts, co.fetchTranscript pr.1 = .ok utts →
    ∀ u ∈ utts, dictGet st.speakerIdentityMap u.speaker = none

/-- The remaining clips have pairwise-disjoint local speaker label sets. -/
def clipsDisjoint (co : Collaborators) (pairs : List (Nat × Nat)) : Prop :=
  pairs.Pairwise (fun a b => ∀ uttsA uttsB, co.fetchTranscript a.1 = .ok uttsA →
    co.fetchTranscript b.1 = .ok uttsB →
    ∀ uA ∈ uttsA, ∀ uB ∈ uttsB, uA.speaker ≠ uB.speaker)

theorem processClip_map_preserved (co : Collaborators) (idx af : Nat)
    (utts : List Utt) (st stMid : RunState) (hz : idx ≠ 0)
    (hfresh : ∀ u ∈ utts, dictGet st.speakerIdentityMap u.speaker = none)
    (h : processClip co idx af utts st = .ok stMid) :
    (∀ k v, dictGet st.speakerIdentityMap k = some v →
       dictGet stMid.speakerIdentityMap k = some v) ∧
    (∀ a, a ∈ dictKeys stMid.speakerIdentityMap →
       a ∈ dictKeys st.speakerIdentityMap ∨ a ∈ speakersOf utts) := by
  cases hemp : utts.isEmpty with
  | true =>
    rw [processClip_of_isEmpty co idx af utts st hemp] at h
    obtain rfl := Except.ok.inj h
    exact ⟨fun k v hk => hk, fun a ha => Or.inl ha⟩
  | false =>
    cases hlm : (findLongestMonologues utts).isEmpty with
    | true =>
      rw [processClip_of_lmEmpty co idx af utts st hemp hlm] at h
      obtain rfl := Except.ok.inj h
      exact ⟨fun k v hk => hk, fun a ha => Or.inl ha⟩
    | false =>
      cases hcur : buildCurrentClips co.sampleSpeaker af (findLongestMonologues utts) with
      | error e =>
        rw [processClip_of_buildErr co idx af utts st e hemp hlm hcur] at h
        exact absurd h (by simp)
      | ok cur =>
        rw [processClip_of_main co idx af utts st cur hemp hlm hcur] at h
        obtain rfl := Except.ok.inj h
        have hcur_sub : ∀ a, a ∈ dictKeys cur → a ∈ speakersOf utts := by
          intro a ha
          rcases exists_utt_of_mem_keys_findLongest utts a
            (mem_keys_buildCurrentClips co.sampleSpeaker af _ cur hcur a ha) with ⟨u, hu, hus⟩
          exact List.mem_map.mpr ⟨u, hu, hus⟩
        constructor
        · intro k v hk
          have hknc : k ∉ dictKeys cur := by
            intro hkc
            rcases List.mem_map.mp (hcur_sub k hkc) with ⟨u, hu, hus⟩
            have := hfresh u hu
            rw [hus, hk] at this
            exact Option.noConfusion this
          show dictGet (applyIdentityStep co idx (findLongestMonologues utts) cur
            (storeRaw idx utts st)).speakerIdentityMap k = some v
          rw [applyIdentityStep_map_pos co idx _ cur _ hz,
            dictGet_resolveAll_not_mem _ _ cur _ k hknc]
          exact hk
        · intro a ha
          have ha2 : a ∈ dictKeys (applyIdentityStep co idx (findLongestMonologues utts)
              cur (storeRaw idx utts st)).speakerIdentityMap := ha
          rw [applyIdentityStep_map_pos co idx _ cur _ hz] at ha2
          rcases mem_keys_resolveAll _ _ cur _ a ha2 with h1 | h1
          · exact Or.inl h1
          · exact Or.inr (hcur_sub a h1)

theorem runClips_map_preserved (co : Collaborators) :
    ∀ (pairs : List (Nat × Nat)) (idx : Nat) (st st2 : RunState),
    1 ≤ idx → freshClipSpeakers co st pairs → clipsDisjoint co pairs →
    runClips co pairs idx st = .ok st2 →
    ∀ k v, dictGet st.speakerIdentityMap k = some v →
      dictGet st2.speakerIdentityMap k = some v := by
  intro pairs
  induction pairs with
  | nil =>
    intro idx st st2 hidx hfresh hdisj h k v hk
    obtain rfl := Except.ok.inj h
    exact hk
  | cons pr rest ih =>
    intro idx st st2 hidx hfresh hdisj h k v hk
    obtain ⟨tid, af⟩ := pr
    unfold runClips at h
    split at h
    · exact absurd h (by simp)
    · rename_i utts hf
      split at h
      · exact absurd h (by simp)
      · rename_i stMid hp
        have hz : idx ≠ 0 := by omega
        have hfresh_head : ∀ u ∈ utts, dictGet st.speakerIdentityMap u.speaker = none :=
          hfresh (tid, af) (List.mem_cons_self _ _) utts hf
        have hstep := processClip_map_preserved co idx af utts st stMid hz hfresh_head hp
        have hfresh_rest : freshClipSpeakers co stMid rest := by
          intro pr2 hpr2 utts2 hf2 u2 hu2
          have hnot : u2.speaker ∉ dictKeys stMid.speakerIdentityMap := by
            intro hmem
            rcases hstep.2 u2.speaker hmem with h1 | h1
            · exact dictGet_ne_none_of_mem_keys _ _ h1
                (hfresh pr2 (List.mem_cons_of_mem _ hpr2) utts2 hf2 u2 hu2)
            · rcases List.mem_map.mp h1 with ⟨uA, huA, husA⟩
              have hrel := (List.pairwise_cons.mp hdisj).1 pr2 hpr2
              exact hrel utts utts2 hf hf2 uA huA u2 hu2 (by rw [husA])
          exact dictGet_eq_none_of_not_mem _ _ hnot
        have hdisj_rest : clipsDisjoint co rest := (List.pairwise_cons.mp hdisj).2
        exact ih (idx + 1) stMid st2 (by omega) hfresh_rest hdisj_rest h k v
          (hstep.1 k v hk)

/-- Collaborator fixture for the C1 counterexample: clip 0 has local
speakers A and B, clip 1 reuses local label A, the oracle never matches. -/
def c1coClash : Collaborators :=
  { nemoAvailable := false
    verifySpeakers := fun _ _ => .error "no nemo"
    depsAvailable := false
    acousticScore := fun _ _ => .error "no deps"
    fetchTranscript := fun tid =>
      if tid = 0 then .ok [⟨[65], 0, 10, "a", none⟩, ⟨[66], 10, 20, "b", none⟩]
      else .ok [⟨[65], 0, 10, "c", none⟩]
    sampleSpeaker := fun _ _ => .ok true }

/-- C1 counterexample: the registry `speaker_identity_map` is keyed by the
bare clip-local label, with no clip dimension.  Clip labels restart at
"A" in every clip, so in one run over two clips the processing of clip 1
overwrites clip 0's registry entry A -> A with A -> C, and the id A drops
out of the assigned-id set: after the first clip of the run the state
maps A (code 65) to A and A is among the assigned values; after the
second clip of the very same run the same entry maps A to C (code 67)
and A is no longer assigned — later processing changed the assignment
and the assigned set did not only grow. -/
theorem c1_counterexample :
    (runClips c1coClash [(0, 0)] 0 ⟨[], [], []⟩).toOption.map
      (fun st => dictGet st.speakerIdentityMap [65]) = some (some [65]) ∧
    (runClips c1coClash [(0, 0), (1, 1)] 0 ⟨[], [], []⟩).toOption.map
      (fun st => dictGet st.speakerIdentityMap [65]) = some (some [67]) ∧
    (runClips c1coClash [(0, 0)] 0 ⟨[], [], []⟩).toOption.map
      (fun st => decide ([65] ∈ dictValues st.speakerIdentityMap)) = some true ∧
    (runClips c1coClash [(0, 0), (1, 1)] 0 ⟨[], [], []⟩).toOption.map
      (fun st => decide ([65] ∈ dictValues st.speakerIdentityMap)) = some false := by
  decide

/-- C1 (amended): the registry is keyed by the clip-local label alone, so
the claimed stability fails when a later clip reuses an earlier clip's
label (see the counterexample).  Amended: provided the remaining clips'
local label sets are pairwise disjoint and disjoint from the registry,
every existing assignment survives all later clips unchanged and the set
of assigned GlobalSpeakerIds only grows; and a freshly minted
GlobalSpeakerId never collides with an already-assigned one as long as
every assigned id is a single ASCII letter. -/
theorem c1_registry_amended :
    (∀ (co : Collaborators) (pairs : List (Nat × Nat)) (idx : Nat) (st st2 : RunState),
      1 ≤ idx → freshClipSpeakers co st pairs → clipsDisjoint co pairs →
      runClips co pairs idx st = .ok st2 →
      (∀ k v, dictGet st.speakerIdentityMap k = some v →
        dictGet st2.speakerIdentityMap k = some v) ∧
      ((dictKeys st.speakerIdentityMap).Nodup →
        ∀ v ∈ dictValues st.speakerIdentityMap,
          v ∈ dictValues st2.speakerIdentityMap)) ∧
    (∀ values : List Label, (∀ v ∈ values, ∃ c, v = [c] ∧ pyIsAlpha c = true) →
      mintLabel values ∉ values) := by
  constructor
  · intro co pairs idx st st2 hidx hfresh hdisj h
    refine ⟨runClips_map_preserved co pairs idx st st2 hidx hfresh hdisj h, ?_⟩
    intro hn v hv
    rcases exists_dictGet_of_mem_values _ v hn hv with ⟨k, hk⟩
    exact mem_values_of_dictGet _ k v
      (runClips_map_preserved co pairs idx st st2 hidx hfresh hdisj h k v hk)
  · exact mintLabel_not_mem_of_alpha

/-- Collaborator fixture for the C1 witness: one remaining clip whose
only local speaker label B does not occur in the registry. -/
def c1wco : Collaborators :=
  { nemoAvailable := false
    verifySpeakers := fun _ _ => .error "no nemo"
    depsAvailable := false
    acousticScore := fun _ _ => .error "no deps"
    fetchTranscript := fun _ => .ok [⟨[66], 0, 10, "b", none⟩]
    sampleSpeaker := fun _ _ => .ok true }

/-- Registry state after clip 0 of the C1 witness run. -/
def c1wst : RunState :=
  { clipUtterances := [(0, [⟨[65], 0, 10, "a", some [65]⟩])]
    speakerIdentityMap := [([65], [65])]
    previousSpeakerClips := [([65], (0, [65]))] }

/-- Registry state after the remaining clip of the C1 witness run. -/
def c1wst2 : RunState :=
  { clipUtterances := [(0, [⟨[65], 0, 10, "a", some [65]⟩]),
                       (1, [⟨[66], 0, 10, "b", some [66]⟩])]
    speakerIdentityMap := [([65], [65]), ([66], [66])]
    previousSpeakerClips := [([65], (0, [65])), ([66], (1, [66]))] }

/-- C1 witness: with disjoint labels the clip-0 assignment A -> A
survives processing of the later clip, A stays assigned, and minting
from the all-letter value set produces a fresh id. -/
theorem c1_registry_amended_witness :
    dictGet c1wst2.speakerIdentityMap [65] = some [65] ∧
    [65] ∈ dictValues c1wst2.speakerIdentityMap ∧
    mintLabel [[65]] ∉ [[65]] := by
  have h := c1_registry_amended.1 c1wco [(1, 1)] 1 c1wst c1wst2 (by omega)
    (by
      intro pr hpr utts hutts u hu
      have h2 : (Except.ok [⟨[66], 0, 10, "b", none⟩] : Except String (List Utt)) =
          .ok utts := hutts
      obtain rfl := Except.ok.inj h2
      simp at hu
      subst hu
      decide)
    (by
      unfold clipsDisjoint
      simp)
    (by decide)
  refine ⟨h.1 [65] [65] (by decide), h.2 (by decide) [65] (by decide),
    c1_registry_amended.2 [[65]] ?_⟩
  intro v hv
  simp at hv
  subst hv
  exact ⟨65, rfl, by decide⟩

theorem dictValues_cons {α β : Type} (p : α × β) (rest : PyDict α β) :
    dictValues (p :: rest) = p.2 :: dictValues rest := rfl

theorem mem_values_dictSet {α β : Type} [DecidableEq α]
    (m : PyDict α β) (k : α) (v w : β)
    (h : w ∈ dictValues (dictSet m k v)) : w = v ∨ w ∈ dictValues m := by
  induction m with
  | nil =>
    simp [dictSet, dictValues] at h
    exact Or.inl h
  | cons p rest ih =>
    by_cases hp : p.1 = k
    · rw [show dictSet (p :: rest) k v = (k, v) :: rest by simp [dictSet, hp],
        dictValues_cons] at h
      rcases List.mem_cons.mp h with h1 | h1
      · exact Or.inl h1
      · exact Or.inr (by rw [dictValues_cons]; exact List.mem_cons_of_mem _ h1)
    · rw [show dictSet (p :: rest) k v = p :: dictSet rest k v by simp [dictSet, hp],
        dictValues_cons] at h
      rcases List.mem_cons.mp h with h1 | h1
      · exact Or.inr (by rw [dictValues_cons]; exact h1 ▸ List.mem_cons_self _ _)
      · rcases ih h1 with h2 | h2
        · exact Or.inl h2
        · exact Or.inr (by rw [dictValues_cons]; exact List.mem_cons_of_mem _ h2)

theorem findMatch_none_of_false (compare : AudioRef → AudioRef → Bool)
    (hfalse : ∀ a b, compare a b = false) (m : PyDict Label Label) (c : AudioRef) :
    ∀ prev : List (Label × AudioRef), findMatch compare m c prev = none := by
  intro prev
  induction prev with
  | nil => rfl
  | cons p rest ih =>
    obtain ⟨base, baseClip⟩ := p
    unfold findMatch
    rw [hfalse c baseClip]
    simpa using ih

theorem resolveSpeaker_no_match (compare : AudioRef → AudioRef → Bool)
    (hfalse : ∀ a b, compare a b = false) (prev : PyDict Label AudioRef)
    (m : PyDict Label Label) (s : Label) (c : AudioRef) :
    resolveSpeaker compare prev m s c = dictSet m s (mintLabel (dictValues m)) := by
  unfold resolveSpeaker
  rw [findMatch_none_of_false compare hfalse m c prev]

theorem resolveAll_no_match (compare : AudioRef → AudioRef → Bool)
    (hfalse : ∀ a b, compare a b = false) (prev : PyDict Label AudioRef) :
    ∀ (cur : List (Label × AudioRef)) (m : PyDict Label Label),
    (dictKeys m).Nodup → (dictKeys cur).Nodup → cur.length ≤ 25 →
    (∀ v ∈ dictValues m, ∃ c, v = [c] ∧ 65 ≤ c ∧ c + cur.length ≤ 90) →
    (dictKeys (resolveAll compare prev m cur)).Nodup ∧
    (∀ k, k ∉ dictKeys cur → dictGet (resolveAll compare prev m cur) k = dictGet m k) ∧
    (∀ s ∈ dictKeys cur, ∃ c, dictGet (resolveAll compare prev m cur) s = some [c] ∧
       (∀ v ∈ dictValues m, ∀ c2, v = [c2] → c2 < c) ∧
       (∀ k v, k ≠ s → dictGet (resolveAll compare prev m cur) k = some v → v ≠ [c])) := by
  intro cur
  induction cur with
  | nil =>
    intro m hmn _ _ _
    refine ⟨hmn, fun k _ => rfl, ?_⟩
    intro s hs
    simp [dictKeys] at hs
  | cons p rest ih =>
    intro m hmn hcn hlen hvals
    obtain ⟨s0, c0⟩ := p
    have hstep : resolveAll compare prev m ((s0, c0) :: rest) =
        resolveAll compare prev (dictSet m s0 (mintLabel (dictValues m))) rest := by
      rw [show resolveAll compare prev m ((s0, c0) :: rest) =
            resolveAll compare prev (resolveSpeaker compare prev m s0 c0) rest from rfl,
        resolveSpeaker_no_match compare hfalse prev m s0 c0]
    have hlen2 : rest.length + 1 ≤ 25 := by simpa using hlen
    have hvals2 : ∀ v ∈ dictValues m, ∃ c, v = [c] ∧ 65 ≤ c ∧
        c ≤ 90 - rest.length - 1 := by
      intro v hv
      rcases hvals v hv with ⟨c, hc1, hc2, hc3⟩
      have hc4 : c + (rest.length + 1) ≤ 90 := by simpa using hc3
      exact ⟨c, hc1, hc2, by omega⟩
    rcases mintLabel_fresh (dictValues m) (90 - rest.length - 1) (by omega) (by omega)
      hvals2 with ⟨cm, hcm_eq, hcm65, hcmB, hcm_gt⟩
    have hm1n : (dictKeys (dictSet m s0 (mintLabel (dictValues m)))).Nodup :=
      keys_nodup_dictSet m s0 _ hmn
    have hcn2 : (s0 :: dictKeys rest).Nodup := by rwa [dictKeys_cons] at hcn
    have hs0nr : s0 ∉ dictKeys rest := (List.nodup_cons.mp hcn2).1
    have hrn : (dictKeys rest).Nodup := (List.nodup_cons.mp hcn2).2
    have hget_s0 : dictGet (dictSet m s0 (mintLabel (dictValues m))) s0 = some [cm] := by
      rw [dictGet_dictSet_self, hcm_eq]
    have hm1vals : ∀ v ∈ dictValues (dictSet m s0 (mintLabel (dictValues m))),
        ∃ c, v = [c] ∧ 65 ≤ c ∧ c + rest.length ≤ 90 := by
      intro v hv
      rcases mem_values_dictSet m s0 _ v hv with h1 | h1
      · refine ⟨cm, by rw [h1, hcm_eq], hcm65, by omega⟩
      · rcases hvals v h1 with ⟨c, hc1, hc2, hc3⟩
        have hc4 : c + (rest.length + 1) ≤ 90 := by simpa using hc3
        exact ⟨c, hc1, hc2, by omega⟩
    have HIH := ih (dictSet m s0 (mintLabel (dictValues m))) hm1n hrn (by omega) hm1vals
    rw [hstep]
    refine ⟨HIH.1, ?_, ?_⟩
    · intro k hk
      rw [dictKeys_cons] at hk
      have hk1 : k ≠ s0 := fun he => hk (by simp [he])
      have hk2 : k ∉ dictKeys rest := fun hm2 => hk (by simp [hm2])
      rw [HIH.2.1 k hk2, dictGet_dictSet_ne m s0 k _ hk1]
    · intro s hs
      rw [dictKeys_cons] at hs
      rcases List.mem_cons.mp hs with h1 | h1
      · subst h1
        refine ⟨cm, ?_, ?_, ?_⟩
        · rw [HIH.2.1 s hs0nr]
          exact hget_s0
        · exact fun v hv c2 hveq => hcm_gt v hv c2 hveq
        · intro k v hk hv
          by_cases hkr : k ∈ dictKeys rest
          · rcases HIH.2.2 k hkr with ⟨ck, hck_get, hck_gt, _⟩
            have hveq : v = [ck] := Option.some.inj (hv.symm.trans hck_get)
            have hlt : cm < ck :=
              hck_gt [cm] (mem_values_of_dictGet _ s [cm] hget_s0) cm rfl
            intro hcontra
            rw [hveq] at hcontra
            simp at hcontra
            omega
          · have heq2 := HIH.2.1 k hkr
            rw [heq2, dictGet_dictSet_ne m s k _ hk] at hv
            have hvm : v ∈ dictValues m := mem_values_of_dictGet m k v hv
            rcases hvals v hvm with ⟨c2, hc2eq, _, _⟩
            have hlt : c2 < cm := hcm_gt v hvm c2 hc2eq
            intro hcontra
            rw [hc2eq] at hcontra
            simp at hcontra
            omega
      · rcases HIH.2.2 s h1 with ⟨ck, hget, hgt1, hfresh1⟩
        refine ⟨ck, hget, ?_, hfresh1⟩
        intro v hv c2 hveq
        have hlt1 : c2 < cm := hcm_gt v hv c2 hveq
        have hlt2 : cm < ck :=
          hgt1 [cm] (mem_values_of_dictGet _ s0 [cm] hget_s0) cm rfl
        omega

/-- Collaborator fixture for the C3 counterexample: clip 0's local labels
are the single characters C (code 67) and the bracket (code 91), clip 1
has one local speaker X (code 88); every comparison resolves to false
(no NeMo, no fallback dependencies). -/
def c3coClash : Collaborators :=
  { nemoAvailable := false
    verifySpeakers := fun _ _ => .error "no nemo"
    depsAvailable := false
    acousticScore := fun _ _ => .error "no deps"
    fetchTranscript := fun tid =>
      if tid = 0 then .ok [⟨[67], 0, 10, "a", none⟩, ⟨[91], 10, 20, "b", none⟩]
      else .ok [⟨[88], 0, 10, "c", none⟩]
    sampleSpeaker := fun _ _ => .ok true }

/-- C3 counterexample: with the oracle returning false on every
comparison of the run, clip 1's single resolvable local speaker X takes
the minting branch, whose max-by-ord scan picks the non-alphabetic
label of code 91 and therefore computes chr(ord("A") + 2) = "C" — a
GlobalSpeakerId already assigned to clip 0's local speaker C.  So the
clip introduces zero new GlobalSpeakerIds instead of one (the assigned
set stays the dedup of codes 91 and 67), and two local speakers from
different clips are merged into the same GlobalSpeakerId despite the
oracle never matching. -/
theorem c3_counterexample :
    compareEmbeddings c3coClash.nemoAvailable c3coClash.verifySpeakers
      c3coClash.depsAvailable c3coClash.acousticScore (1, [88]) (0, [67]) = false ∧
    compareEmbeddings c3coClash.nemoAvailable c3coClash.verifySpeakers
      c3coClash.depsAvailable c3coClash.acousticScore (1, [88]) (0, [91]) = false ∧
    (runClips c3coClash [(0, 0), (1, 1)] 0 ⟨[], [], []⟩).toOption.map
      (fun st => (dictGet st.speakerIdentityMap [88],
        dictGet st.speakerIdentityMap [67],
        (dictValues st.speakerIdentityMap).dedup)) =
      some (some [67], some [67], [[91], [67]]) := by decide

/-- C3 (amended): when the oracle matches nothing, every resolvable local
speaker of the current clip is mapped, its GlobalSpeakerId is new (not
among the previously assigned values), and it is shared with no other
registry entry — distinct resolvable speakers of the clip included — so
the clip introduces exactly as many new GlobalSpeakerIds as it has
resolvable local speakers; this needs the amending hypothesis that every
previously assigned id is a single character with room left in the
uppercase alphabet, since the minting heuristic of lines 793-803 can
otherwise collide with an existing id (see the counterexample). -/
theorem c3_no_match_amended (compare : AudioRef → AudioRef → Bool)
    (m : PyDict Label Label) (prev currentClips : PyDict Label AudioRef)
    (hfalse : ∀ a b, compare a b = false)
    (hmn : (dictKeys m).Nodup) (hcn : (dictKeys currentClips).Nodup)
    (hlen : currentClips.length ≤ 25)
    (hvals : ∀ v ∈ dictValues m, ∃ c, v = [c] ∧ 65 ≤ c ∧
      c + currentClips.length ≤ 90) :
    (∀ s ∈ dictKeys currentClips,
       dictGet (compareSpeakersAcrossClips compare m prev currentClips).1 s ≠ none) ∧
    (∀ s ∈ dictKeys currentClips, ∀ v,
       dictGet (compareSpeakersAcrossClips compare m prev currentClips).1 s = some v →
       v ∉ dictValues m ∧
       ∀ k v2, k ≠ s →
         dictGet (compareSpeakersAcrossClips compare m prev currentClips).1 k = some v2 →
         v2 ≠ v) := by
  have H := resolveAll_no_match compare hfalse prev currentClips m hmn hcn hlen hvals
  constructor
  · intro s hs
    rcases H.2.2 s hs with ⟨c, hc, _, _⟩
    show dictGet (resolveAll compare prev m currentClips) s ≠ none
    rw [hc]
    simp
  · intro s hs v hv
    rcases H.2.2 s hs with ⟨c, hc, hgt, hfr⟩
    have hveq : v = [c] := Option.some.inj ((Eq.symm hv).trans hc)
    subst hveq
    constructor
    · intro hmem
      exact absurd (hgt _ hmem c rfl) (lt_irrefl c)
    · exact fun k v2 hk hv2 => hfr k v2 hk hv2

/-- C3 witness: one resolvable speaker B against a registry holding only
A; the minted id is defined and is not the already-assigned A. -/
theorem c3_no_match_amended_witness :
    dictGet (compareSpeakersAcrossClips (fun _ _ => false) [([65], [65])]
      [([65], (0, [65]))] [([66], (1, [66]))]).1 [66] ≠ none ∧
    ([66] : Label) ∉ dictValues [(([65] : Label), ([65] : Label))] := by
  have h := c3_no_match_amended (fun _ _ => false) [([65], [65])] [([65], (0, [65]))]
    [([66], (1, [66]))] (fun a b => rfl) (by decide) (by decide) (by decide)
    (by
      intro v hv
      simp [dictValues] at hv
      subst hv
      exact ⟨65, rfl, by omega, by simp⟩)
  exact ⟨h.1 [66] (by decide), (h.2 [66] (by decide) [66] (by decide)).1⟩

/-- C4 witness: the amended statement evaluated on concrete inputs. -/
theorem c4_propagation_amended_witness :
    processClipsAsync c4co [0] [] =
      .error (.processingError
        "Async speaker diarization failed: Number of transcript IDs must match number of audio files") ∧
    processClipsAsync c4co [0] [] ≠
      .error (.validationError "Number of transcript IDs must match number of audio files") ∧
    processClipsAsync c4co [] [] =
      .ok { success := true, totalClipsProcessed := 0, clipUtterances := [],
            speakerIdentityMap := [], uniqueSpeakers := [], nemoAvailable := false } :=
  ⟨(c4_propagation_amended c4co [0] []).1 (by decide),
   (c4_propagation_amended c4co [0] []).2.1 "Number of transcript IDs must match number of audio files",
   (c4_propagation_amended c4co [] []).2.2 rfl rfl⟩

end SpeakerDiarization
